import Mathlib

/-!
A verification development for the ssh-build-server repository.

The core of the program lives in src/util/ssh.rs: recursive directory push
over SCP (send_directory), remote directory materialization (make_dirs),
recursive directory pull (receive_directory), and filtered remote command
execution (compile_commands / execute_commands).

Shallow embedding conventions:
- Paths are lists of components (Rust Path components); the root marker is
  not modeled, so an absolute path a/b is the list [a, b].
- The local tree handed to send_directory is an FsTree; the remote
  filesystem reached over SFTP/SCP is an association list from paths to
  nodes, in creation order (keys are unique in every state the program
  builds). The local filesystem written by receive_directory is likewise an
  association list.
- Fallible remote primitives (stat, the SCP send stream) can be made to
  fail through an explicit Faults record; noFaults is the fault-free
  session. The artifacts field models directory-listing artifacts (such as
  dot entries) that a real SFTP listing may contain on top of the genuine
  children.
- Rust Result errors are the err constructor of Outcome; a Rust panic
  (make_dirs panics on a non-directory component and unwraps mkdir) is the
  panicked constructor, which aborts the whole call like an unwinding
  panic does. Every constructor carries the state reached so far, so
  theorems can speak about which writes happened.
- receive_directory recurses on the remote tree, which the Rust code does
  without a structural bound; the embedding uses an explicit fuel counter
  and theorems supply enough fuel for the tree at hand.
-/

/-- A path, as its list of components. -/
abbrev Pathc := List String

/-- Rendering of a path for error messages (Rust display). -/
def dispPath (p : Pathc) : String := String.intercalate "/" p

/-- Boolean list-prefix test on paths. -/
def isPre : Pathc → Pathc → Bool
  | [], _ => true
  | _ :: _, [] => false
  | a :: as, b :: bs => a == b && isPre as bs

/-- Command record from src/util/settings.rs. -/
structure Command where
  command : String
  description : String
  execute_after_compilation : Bool
deriving Repr, DecidableEq

/-- Local directory tree: the content of the directory send_directory reads. -/
inductive FsTree
  | file (content : List Nat)
  | dir (children : List (String × FsTree))

/-- Nodes of the remote filesystem: directories and regular files, each with
the permission mode it was created with; a remote file also records the byte
length that was announced when its SCP send stream was opened. -/
inductive RNode
  | dir (mode : Nat)
  | rfile (content : List Nat) (mode : Nat) (len : Nat)
deriving Repr, DecidableEq

/-- Nodes of the local filesystem written by receive_directory. -/
inductive LNode
  | ldir
  | lfile (content : List Nat)
deriving Repr, DecidableEq

/-- The remote filesystem, keyed by full path. -/
abbrev RemoteFS := List (Pathc × RNode)

/-- The local filesystem written by the pull engine, keyed by full path. -/
abbrev LocalFS := List (Pathc × LNode)

/-- First-match association-list lookup. -/
def alookup {ν : Type} : List (Pathc × ν) → Pathc → Option ν
  | [], _ => none
  | (q, n) :: rest, p => if q = p then some n else alookup rest p

/-- Overwrite-or-append write used for completed file transfers. -/
def awrite {ν : Type} : List (Pathc × ν) → Pathc → ν → List (Pathc × ν)
  | [], p, n => [(p, n)]
  | (q, m) :: rest, p, n => if q = p then (p, n) :: rest else (q, m) :: awrite rest p n

/-- Errors a stat call can report; the Rust code matches all of them with a
single wildcard pattern, so only their presence matters to it. -/
inductive SErr
  | noSuchFile
  | transport (code : Nat)
deriving Repr, DecidableEq

/-- The io ErrorKind values the embedded code constructs or meets. -/
inductive ErrKind
  | notFound
  | invalidInput
  | notADirectory
deriving Repr, DecidableEq

/-- Errors surfaced through Result values in the embedded code. -/
inductive SbsError
  | ioErr (kind : ErrKind) (msg : String)
  | transferFail (p : Pathc)
  | sftpReaddir (p : Pathc)
  | scpRecvFail (p : Pathc)
  | localNotDir (p : Pathc)
  | localIsDir (p : Pathc)
  | outOfFuel
deriving Repr, DecidableEq

/-- Outcome of a stateful operation: ok, a Result error, or a Rust panic.
Every constructor carries the state reached when the operation ended. -/
inductive Outcome (σ : Type) (α : Type)
  | ok (st : σ) (val : α)
  | err (e : SbsError) (st : σ)
  | panicked (msg : String) (st : σ)
deriving Repr, DecidableEq

/-- State carried by an outcome, whichever way the operation ended. -/
def stOf {σ α : Type} : Outcome σ α → σ
  | .ok st _ => st
  | .err _ st => st
  | .panicked _ st => st

/-- The ErrorKind of an outcome that is an io error, if any. -/
def errKindOf {σ α : Type} : Outcome σ α → Option ErrKind
  | .err (.ioErr k _) _ => some k
  | _ => none

/-- Whether an outcome is a panic. -/
def isPanic {σ α : Type} : Outcome σ α → Bool
  | .panicked _ _ => true
  | _ => false

/-- Whether an outcome is a Result error. -/
def isErrO {σ α : Type} : Outcome σ α → Bool
  | .err _ _ => true
  | _ => false

/-- Fault model for the remote session: statErr makes stat fail at a path
with the given error, sendFail makes the SCP send stream to a path fail, and
artifacts are extra entries a directory listing reports. -/
structure Faults where
  statErr : Pathc → Option SErr
  sendFail : Pathc → Bool
  artifacts : Pathc → List (Pathc × RNode)

/-- The fault-free remote session. -/
def noFaults : Faults := Faults.mk (fun _ => none) (fun _ => false) (fun _ => [])

/-- Whether a remote stat result is a directory. -/
def RNode.isDir : RNode → Bool
  | .dir _ => true
  | _ => false

/-- sftp stat: an injected fault wins, otherwise the node at the path if it
exists. -/
def statR (f : Faults) (fs : RemoteFS) (p : Pathc) : Except SErr RNode :=
  match f.statErr p with
  | some e => .error e
  | none =>
    match alookup fs p with
    | some n => .ok n
    | none => .error .noSuchFile

/-- sftp mkdir: fails when the path already exists, otherwise appends a new
directory entry with the given mode. -/
def mkdirFS (fs : RemoteFS) (p : Pathc) (mode : Nat) : Option RemoteFS :=
  match alookup fs p with
  | some _ => none
  | none => some (fs ++ [(p, .dir mode)])

/-- Sbs::make_dirs, inner loop: walk the components of the remote path,
accumulating a prefix; stat each prefix, continue when it is a directory,
panic when it exists as a non-directory, mkdir (mode 0o755) when the stat
fails, panicking if the mkdir itself fails (the Rust code unwraps it). -/
def make_dirs_go (f : Faults) (fs : RemoteFS) (pre : Pathc) : List String → Outcome RemoteFS Unit
  | [] => .ok fs ()
  | c :: cs =>
    let p := pre ++ [c]
    match statR f fs p with
    | .ok n =>
      if n.isDir then make_dirs_go f fs p cs
      else .panicked ("The remote path " ++ dispPath p ++ " is not a directory!") fs
    | .error _ =>
      match mkdirFS fs p 0o755 with
      | some fs2 => make_dirs_go f fs2 p cs
      | none => .panicked ("mkdir failed on " ++ dispPath p) fs

/-- Sbs::make_dirs from src/util/ssh.rs. -/
def make_dirs (f : Faults) (fs : RemoteFS) (remote_path : Pathc) : Outcome RemoteFS Unit :=
  make_dirs_go f fs [] remote_path

mutual
/-- Body of Sbs::send_directory once the local path is known to exist: stat
the remote path; if it exists as a non-directory return an InvalidInput
error, if the stat fails call make_dirs; then read the local directory and
push each child in order (a local file fails read_dir with a not-a-directory
os error). -/
def send_node (f : Faults) (lp : Pathc) (t : FsTree) (rp : Pathc) (fs : RemoteFS) : Outcome RemoteFS Unit :=
  let afterRemote : Outcome RemoteFS Unit :=
    match statR f fs rp with
    | .ok n =>
      if n.isDir then .ok fs ()
      else .err (.ioErr .invalidInput ("The remote path " ++ dispPath rp ++ " is not a directory!")) fs
    | .error _ => make_dirs f fs rp
  match afterRemote with
  | .ok fs1 _ =>
    match t with
    | .file _ => .err (.ioErr .notADirectory ("read_dir on " ++ dispPath lp ++ ": not a directory")) fs1
    | .dir cs => send_children f lp cs rp fs1
  | .err e st => .err e st
  | .panicked m st => .panicked m st

/-- The child loop of Sbs::send_directory: a directory child recurses into
send_directory, a file child opens an SCP send stream at the joined remote
path with mode 0o755 and the byte length of the file, and streams the
content; the first failing child aborts the loop. -/
def send_children (f : Faults) (lp : Pathc) (cs : List (String × FsTree)) (rp : Pathc) (fs : RemoteFS) : Outcome RemoteFS Unit :=
  match cs with
  | [] => .ok fs ()
  | (n, t) :: rest =>
    let step : Outcome RemoteFS Unit :=
      match t with
      | .dir cs2 => send_node f (lp ++ [n]) (.dir cs2) (rp ++ [n]) fs
      | .file c =>
        if f.sendFail (rp ++ [n]) then .err (.transferFail (rp ++ [n])) fs
        else .ok (awrite fs (rp ++ [n]) (.rfile c 0o755 c.length)) ()
    match step with
    | .ok fs2 _ => send_children f lp rest rp fs2
    | .err e st => .err e st
    | .panicked m st => .panicked m st
end

/-- Sbs::send_directory from src/util/ssh.rs. The local argument is the tree
at the local path, or none when the local path does not exist. -/
def send_directory (f : Faults) (lp : Pathc) (localNode : Option FsTree) (rp : Pathc) (fs : RemoteFS) : Outcome RemoteFS Unit :=
  match localNode with
  | none => .err (.ioErr .notFound ("The local path " ++ dispPath lp ++ " does not exist!")) fs
  | some t => send_node f lp t rp fs

/-- The direct children of a path in the remote filesystem, in listing
order, with their full paths, as sftp readdir reports them. -/
def childrenOf {ν : Type} (fs : List (Pathc × ν)) (p : Pathc) : List (Pathc × ν) :=
  fs.filter (fun e => isPre p e.1 && e.1.length == p.length + 1)

/-- sftp readdir: the genuine children of a remote directory followed by any
listing artifacts the session reports for that path; fails when the path is
not a directory. -/
def readdirR (f : Faults) (fs : RemoteFS) (p : Pathc) : Except SbsError (List (Pathc × RNode)) :=
  match alookup fs p with
  | some (.dir _) => .ok (childrenOf fs p ++ f.artifacts p)
  | _ => .error (.sftpReaddir p)

/-- Rust Path::file_name on a component list: dot and empty components are
normalized away, a final parent-dir component or an empty remainder has no
file name. -/
def file_name (p : Pathc) : Option String :=
  match (p.filter (fun c => !(c == "." || c == ""))).getLast? with
  | some s => if s == ".." then none else some s
  | none => none

/-- std fs create_dir_all, inner walk: create every missing prefix as a
directory, fail when a prefix exists as a file. -/
def create_dir_all_go (lfs : LocalFS) (pre : Pathc) : List String → Except SbsError LocalFS
  | [] => .ok lfs
  | c :: cs =>
    let p := pre ++ [c]
    match alookup lfs p with
    | some .ldir => create_dir_all_go lfs p cs
    | some (.lfile _) => .error (.localNotDir p)
    | none => create_dir_all_go (lfs ++ [(p, .ldir)]) p cs

/-- std fs create_dir_all on a full path. -/
def create_dir_all (lfs : LocalFS) (p : Pathc) : Except SbsError LocalFS :=
  create_dir_all_go lfs [] p

/-- File::create plus io copy: truncating create of the local file and write
of the received bytes; fails when the path is an existing directory. -/
def file_create (lfs : LocalFS) (p : Pathc) (c : List Nat) : Except SbsError LocalFS :=
  match alookup lfs p with
  | some .ldir => .error (.localIsDir p)
  | _ => .ok (awrite lfs p (.lfile c))

/-- scp recv of one remote file: the bytes of the remote file at the path. -/
def scp_recv (fs : RemoteFS) (p : Pathc) : Except SbsError (List Nat) :=
  match alookup fs p with
  | some (.rfile c _ _) => .ok c
  | _ => .error (.scpRecvFail p)

/-- The entry loop of Sbs::receive_directory: skip entries whose path has no
file name; for a directory entry create the local subdirectory and recurse
(recurse is the recursive receive_directory call, one fuel level down), for
a file entry scp recv the remote file and write it locally; the first
failing entry aborts the loop. -/
def receive_entries (recurse : Pathc → Pathc → LocalFS → Outcome LocalFS Unit)
    (fs : RemoteFS) (lp rp : Pathc) : List (Pathc × RNode) → LocalFS → Outcome LocalFS Unit
  | [], lfs => .ok lfs ()
  | (pb, st) :: rest, lfs =>
    match file_name pb with
    | none => receive_entries recurse fs lp rp rest lfs
    | some n =>
      let rfp := rp ++ [n]
      let lfp := lp ++ [n]
      let step : Outcome LocalFS Unit :=
        if st.isDir then
          match create_dir_all lfs lfp with
          | .error e => .err e lfs
          | .ok lfs1 => recurse lfp rfp lfs1
        else
          match scp_recv fs rfp with
          | .error e => .err e lfs
          | .ok c =>
            match file_create lfs lfp c with
            | .error e => .err e lfs
            | .ok lfs1 => .ok lfs1 ()
      match step with
      | .ok lfs1 _ => receive_entries recurse fs lp rp rest lfs1
      | .err e st2 => .err e st2
      | .panicked m st2 => .panicked m st2

/-- Sbs::receive_directory from src/util/ssh.rs: create the local directory
with all ancestors, list the remote directory, and walk the entries. The
fuel argument bounds the recursion depth of the embedding; it plays no role
in the Rust code and theorems always supply enough of it. -/
def receive_directory (f : Faults) (fs : RemoteFS) : Nat → Pathc → Pathc → LocalFS → Outcome LocalFS Unit
  | 0, _, _, lfs => .err .outOfFuel lfs
  | fuel + 1, lp, rp, lfs =>
    match create_dir_all lfs lp with
    | .error e => .err e lfs
    | .ok lfs1 =>
      match readdirR f fs rp with
      | .error e => .err e lfs1
      | .ok entries => receive_entries (receive_directory f fs fuel) fs lp rp entries lfs1

/-- Sbs::compile_commands: push each command text followed by a newline onto
one growing string. -/
def compile_commands (commands : List Command) : String :=
  commands.foldl (fun acc c => acc ++ c.command ++ "\n") ""

/-- Sbs::execute_commands: retain the commands whose phase flag equals the
requested phase, compile them into one script, and submit that script on a
remote channel, returning the captured output. The channel round-trip is the
ex oracle. -/
def execute_commands (ex : String → Except SbsError String) (commands : List Command) (is_after_compilation : Bool) : Except SbsError String :=
  let kept := commands.filter (fun c => c.execute_after_compilation == is_after_compilation)
  let compiled := compile_commands kept
  ex compiled

/-- Names of a child list. -/
def namesOf (cs : List (String × FsTree)) : List String := cs.map Prod.fst

/-- Boolean no-duplicates test on names. -/
def nodupB : List String → Bool
  | [] => true
  | n :: rest => !(rest.contains n) && nodupB rest

/-- A well-formed file name: what a real directory entry can be called. -/
def wfNameB (n : String) : Bool := n != "" && n != "." && n != ".."

mutual
/-- Well-formed local tree: every directory level has pairwise distinct,
well-formed child names. -/
def wfTree : FsTree → Bool
  | .file _ => true
  | .dir cs => nodupB (namesOf cs) && wfChildren cs

/-- Well-formedness of a child list. -/
def wfChildren : List (String × FsTree) → Bool
  | [] => true
  | (n, t) :: rest => wfNameB n && wfTree t && wfChildren rest
end

mutual
/-- Directory-nesting depth of a tree; a file has depth zero. -/
def depth : FsTree → Nat
  | .file _ => 0
  | .dir cs => depthChildren cs + 1

/-- Maximum depth over a child list. -/
def depthChildren : List (String × FsTree) → Nat
  | [] => 0
  | (_, t) :: rest => max (depth t) (depthChildren rest)
end

mutual
/-- The remote entries a fault-free push of the tree rooted at p creates, in
creation order. -/
def flattenR (p : Pathc) : FsTree → List (Pathc × RNode)
  | .file c => [(p, .rfile c 0o755 c.length)]
  | .dir cs => (p, .dir 0o755) :: flattenChildrenR p cs

/-- Remote entries created for a child list of the directory at p. -/
def flattenChildrenR (p : Pathc) : List (String × FsTree) → List (Pathc × RNode)
  | [] => []
  | (n, t) :: rest => flattenR (p ++ [n]) t ++ flattenChildrenR p rest
end

mutual
/-- The local entries a fault-free pull of the tree rooted at p creates, in
creation order. -/
def flattenL (p : Pathc) : FsTree → List (Pathc × LNode)
  | .file c => [(p, .lfile c)]
  | .dir cs => (p, .ldir) :: flattenChildrenL p cs

/-- Local entries created for a child list of the directory at p. -/
def flattenChildrenL (p : Pathc) : List (String × FsTree) → List (Pathc × LNode)
  | [] => []
  | (n, t) :: rest => flattenL (p ++ [n]) t ++ flattenChildrenL p rest
end

/-- The remote node corresponding to the top of a pushed tree. -/
def topR : FsTree → RNode
  | .file c => .rfile c 0o755 c.length
  | .dir _ => .dir 0o755

/-- The local node corresponding to the top of a pulled tree. -/
def toLNode : FsTree → LNode
  | .file c => .lfile c
  | .dir _ => .ldir

/-- First child with the given name. -/
def findChild : List (String × FsTree) → String → Option FsTree
  | [], _ => none
  | (m, t) :: rest, n => if m == n then some t else findChild rest n

/-- The subtree of a tree at a relative component path. -/
def subAt : FsTree → Pathc → Option FsTree
  | t, [] => some t
  | .file _, _ :: _ => none
  | .dir cs, n :: rest =>
    match findChild cs n with
    | some t => subAt t rest
    | none => none

/-- The nonempty prefixes of pre ++ rest that strictly extend pre, shortest
first: the paths make_dirs visits from the accumulator pre. -/
def neInitsFrom (pre : Pathc) : List String → List Pathc
  | [] => []
  | c :: cs => (pre ++ [c]) :: neInitsFrom (pre ++ [c]) cs

/-- Those paths as fresh remote directories with mode 0o755. -/
def dirsOfInits (ps : List Pathc) : RemoteFS := ps.map (fun q => (q, .dir 0o755))

/-- Those paths as fresh local directories. -/
def ldirsOfInits (ps : List Pathc) : LocalFS := ps.map (fun q => (q, .ldir))

/-- The remote filesystem after pushing the directory tree with children cs
to the path rp of an empty remote filesystem. -/
def remoteAfterPush (rp : Pathc) (cs : List (String × FsTree)) : RemoteFS :=
  dirsOfInits (neInitsFrom [] rp) ++ flattenChildrenR rp cs

/-- The local filesystem after pulling that remote filesystem back to the
path lp of an empty local filesystem. -/
def localAfterPull (lp : Pathc) (cs : List (String × FsTree)) : LocalFS :=
  ldirsOfInits (neInitsFrom [] lp) ++ flattenChildrenL lp cs

/-- The fixed transfer attributes of claim C8: every directory mode is
0o755 and every file was pushed with mode 0o755 and announced length equal
to its byte count. -/
def goodR : RNode → Bool
  | .dir m => m == 0o755
  | .rfile c m l => m == 0o755 && l == c.length

/-- A session whose script submission always succeeds, returning the output
that the pure oracle gives for the submitted script. -/
def okExec (g : String → String) : String → Except SbsError String :=
  fun s => .ok (g s)

/-- The script the spec words of C6 describe: the matching command texts
joined with single newline separators (no trailing newline). -/
def specJoinedScript (commands : List Command) (is_after_compilation : Bool) : String :=
  String.intercalate "\n" ((commands.filter (fun c => c.execute_after_compilation == is_after_compilation)).map Command.command)

/-- The faults of claim C4: the single file transfer to rp/ny fails. -/
def failAt (q : Pathc) : Faults :=
  Faults.mk (fun _ => none) (fun p => p == q) (fun _ => [])

/-- The faults of claim C10: stat fails at the path r with a transport
error; everything else is healthy. -/
def statFaultR : Faults :=
  Faults.mk (fun p => if p = ["r"] then some (.transport 7) else none) (fun _ => false) (fun _ => [])

/-- Strip the artifact injection from a fault model. -/
def noArt (f : Faults) : Faults := Faults.mk f.statErr f.sendFail (fun _ => [])

/-- The faults of claim C9: the listing of the path r carries a parent-dir
artifact entry, which has no file name. -/
def artFaults : Faults :=
  Faults.mk (fun _ => none) (fun _ => false)
    (fun p => if p = ["r"] then [(["r", ".."], .dir 0o755)] else [])

/-- The remote filesystem of claim C9: one directory r holding one file a. -/
def fsC9 : RemoteFS := [(["r"], .dir 0o755), (["r", "a"], .rfile [7] 0o755 1)]

/-- The child list of an optional tree, empty for files and misses. -/
def childListOf : Option FsTree → List (String × FsTree)
  | some (.dir cs) => cs
  | _ => []

/-- The remote filesystem carries the tree t below the path p: every
directory of t is listed with exactly the corresponding children, and every
file of t is present with its bytes. -/
def TreeFsMatch (fs : RemoteFS) (p : Pathc) (t : FsTree) : Prop :=
  (∀ rel : Pathc, ∀ cs : List (String × FsTree), subAt t rel = some (.dir cs) →
    (∃ m, alookup fs (p ++ rel) = some (.dir m)) ∧
    childrenOf fs (p ++ rel) = cs.map (fun e => ((p ++ rel) ++ [e.1], topR e.2)))
  ∧ ∀ rel : Pathc, ∀ c : List Nat, subAt t rel = some (.file c) →
    alookup fs (p ++ rel) = some (.rfile c 0o755 c.length)

mutual
/-- Size measure on trees, for induction. -/
def sizeT : FsTree → Nat
  | .file _ => 1
  | .dir cs => sizeC cs + 1

/-- Size measure on child lists, for induction. -/
def sizeC : List (String × FsTree) → Nat
  | [] => 0
  | (_, t) :: rest => sizeT t + sizeC rest + 1
end

/-- A concrete local tree used to instantiate claims: a file, a nested
subdirectory with a zero-byte file, and an empty subdirectory. -/
def csW : List (String × FsTree) :=
  [("a", .file [1, 2]), ("sub", .dir [("b", .file [])]), ("empty", .dir [])]

theorem isPre_iff : ∀ p q : Pathc, isPre p q = true ↔ ∃ s, q = p ++ s
  | [], q => by simp [isPre]
  | _ :: _, [] => by simp [isPre]
  | a :: as, b :: bs => by
    simp only [isPre, Bool.and_eq_true, beq_iff_eq, List.cons_append, List.cons.injEq]
    constructor
    · rintro ⟨rfl, h⟩
      obtain ⟨s, rfl⟩ := (isPre_iff as bs).1 h
      exact ⟨s, rfl, rfl⟩
    · rintro ⟨s, rfl, rfl⟩
      exact ⟨rfl, (isPre_iff as (as ++ s)).2 ⟨s, rfl⟩⟩

theorem isPre_refl (p : Pathc) : isPre p p = true :=
  (isPre_iff p p).2 ⟨[], by simp⟩

theorem isPre_append (p s : Pathc) : isPre p (p ++ s) = true :=
  (isPre_iff p (p ++ s)).2 ⟨s, rfl⟩

theorem isPre_trans {p q r : Pathc} (h1 : isPre p q = true) (h2 : isPre q r = true) :
    isPre p r = true := by
  obtain ⟨s, rfl⟩ := (isPre_iff p q).1 h1
  obtain ⟨u, rfl⟩ := (isPre_iff (p ++ s) _).1 h2
  exact (isPre_iff _ _).2 ⟨s ++ u, by simp⟩

theorem isPre_length {p q : Pathc} (h : isPre p q = true) : p.length ≤ q.length := by
  obtain ⟨s, rfl⟩ := (isPre_iff p q).1 h
  simp

theorem isPre_of_length_eq {p q : Pathc} (h : isPre p q = true) (hl : q.length = p.length) :
    q = p := by
  obtain ⟨s, rfl⟩ := (isPre_iff p q).1 h
  have hs : s.length = 0 := by
    simp only [List.length_append] at hl
    omega
  simp [List.eq_nil_of_length_eq_zero hs]

theorem isPre_snoc_same {p : Pathc} {n m : String} {q : Pathc}
    (h : isPre (p ++ [n]) q = true) (h2 : isPre (p ++ [m]) q = true) : n = m := by
  obtain ⟨s, rfl⟩ := (isPre_iff _ q).1 h
  obtain ⟨u, hu⟩ := (isPre_iff _ _).1 h2
  rw [List.append_assoc, List.append_assoc] at hu
  have h3 := List.append_cancel_left hu
  simp only [List.singleton_append, List.cons.injEq] at h3
  exact h3.1

theorem alookup_append_some {ν : Type} {A : List (Pathc × ν)} {p : Pathc} {v : ν}
    (B : List (Pathc × ν)) (h : alookup A p = some v) : alookup (A ++ B) p = some v := by
  induction A with
  | nil => simp [alookup] at h
  | cons e rest ih =>
    obtain ⟨q, n⟩ := e
    by_cases hq : q = p
    · simp [alookup, hq] at h ⊢
      exact h
    · simp [alookup, hq] at h ⊢
      exact ih h

theorem alookup_append_none {ν : Type} {A : List (Pathc × ν)} {p : Pathc}
    (B : List (Pathc × ν)) (h : alookup A p = none) : alookup (A ++ B) p = alookup B p := by
  induction A with
  | nil => rfl
  | cons e rest ih =>
    obtain ⟨q, n⟩ := e
    by_cases hq : q = p
    · simp [alookup, hq] at h
    · simp [alookup, hq] at h ⊢
      exact ih h

theorem alookup_none_iff {ν : Type} (A : List (Pathc × ν)) (p : Pathc) :
    alookup A p = none ↔ ∀ e ∈ A, e.1 ≠ p := by
  induction A with
  | nil => simp [alookup]
  | cons e rest ih =>
    obtain ⟨q, n⟩ := e
    simp only [alookup]
    by_cases hq : q = p
    · subst hq
      simp only [if_pos rfl]
      constructor
      · intro h
        cases h
      · intro h
        exact absurd rfl (h (q, n) (List.mem_cons_self _ _))
    · simp only [if_neg hq, ih, List.mem_cons]
      constructor
      · intro h e he
        rcases he with he | he
        · subst he
          exact hq
        · exact h e he
      · intro h e he
        exact h e (Or.inr he)

theorem awrite_none {ν : Type} {A : List (Pathc × ν)} {p : Pathc} (v : ν)
    (h : alookup A p = none) : awrite A p v = A ++ [(p, v)] := by
  induction A with
  | nil => rfl
  | cons e rest ih =>
    obtain ⟨q, n⟩ := e
    by_cases hq : q = p
    · simp [alookup, hq] at h
    · simp [alookup, hq] at h
      simp [awrite, hq, ih h]

theorem childrenOf_append {ν : Type} (A B : List (Pathc × ν)) (p : Pathc) :
    childrenOf (A ++ B) p = childrenOf A p ++ childrenOf B p := by
  simp [childrenOf, List.filter_append]

theorem childrenOf_nil_of_short {ν : Type} {A : List (Pathc × ν)} {p : Pathc}
    (h : ∀ e ∈ A, e.1.length ≤ p.length) : childrenOf A p = [] := by
  simp only [childrenOf, List.filter_eq_nil_iff]
  intro e he
  have := h e he
  simp only [Bool.and_eq_true, beq_iff_eq, Nat.add_one, not_and]
  intro _
  omega

theorem nodupB_cons {n : String} {l : List String} :
    nodupB (n :: l) = true ↔ ¬ n ∈ l ∧ nodupB l = true := by
  simp [nodupB, List.contains, List.elem_iff]

theorem wfTree_dir {cs : List (String × FsTree)} :
    wfTree (.dir cs) = true ↔ nodupB (namesOf cs) = true ∧ wfChildren cs = true := by
  simp [wfTree, Bool.and_eq_true]

theorem wfChildren_cons {n : String} {t : FsTree} {rest : List (String × FsTree)} :
    wfChildren ((n, t) :: rest) = true ↔
      wfNameB n = true ∧ wfTree t = true ∧ wfChildren rest = true := by
  simp [wfChildren, Bool.and_eq_true, and_assoc]

theorem treeInd (P : FsTree → Prop) (Q : List (String × FsTree) → Prop)
    (hfile : ∀ c, P (.file c))
    (hdir : ∀ cs, Q cs → P (.dir cs))
    (hnil : Q [])
    (hcons : ∀ n t rest, P t → Q rest → Q ((n, t) :: rest)) :
    (∀ t, P t) ∧ ∀ cs, Q cs := by
  have key : ∀ N, (∀ t, sizeT t ≤ N → P t) ∧ (∀ cs, sizeC cs ≤ N → Q cs) := by
    intro N
    induction N with
    | zero =>
      constructor
      · intro t ht
        cases t with
        | file c => exact hfile c
        | dir cs =>
          simp only [sizeT] at ht
          omega
      · intro cs hcs
        cases cs with
        | nil => exact hnil
        | cons hd rest =>
          obtain ⟨n, t⟩ := hd
          simp only [sizeC] at hcs
          omega
    | succ k ih =>
      constructor
      · intro t ht
        cases t with
        | file c => exact hfile c
        | dir cs =>
          apply hdir
          apply ih.2
          simp only [sizeT] at ht
          omega
      · intro cs hcs
        cases cs with
        | nil => exact hnil
        | cons hd rest =>
          obtain ⟨n, t⟩ := hd
          simp only [sizeC] at hcs
          exact hcons n t rest (ih.1 t (by omega)) (ih.2 rest (by omega))
  exact ⟨fun t => (key (sizeT t)).1 t le_rfl, fun cs => (key (sizeC cs)).2 cs le_rfl⟩

theorem flatten_keysR :
    (∀ (t : FsTree) (p : Pathc) (e : Pathc × RNode), e ∈ flattenR p t → isPre p e.1 = true)
    ∧ ∀ (cs : List (String × FsTree)) (p : Pathc) (e : Pathc × RNode),
        e ∈ flattenChildrenR p cs → ∃ n, n ∈ namesOf cs ∧ isPre (p ++ [n]) e.1 = true := by
  refine treeInd
    (fun t => ∀ p e, e ∈ flattenR p t → isPre p e.1 = true)
    (fun cs => ∀ p e, e ∈ flattenChildrenR p cs →
      ∃ n, n ∈ namesOf cs ∧ isPre (p ++ [n]) e.1 = true) ?_ ?_ ?_ ?_
  · intro c p e h
    simp only [flattenR, List.mem_singleton] at h
    subst h
    exact isPre_refl p
  · intro cs hq p e h
    simp only [flattenR, List.mem_cons] at h
    rcases h with h | h
    · subst h
      exact isPre_refl p
    · obtain ⟨n, _, hpre⟩ := hq p e h
      exact isPre_trans (isPre_append p [n]) hpre
  · intro p e h
    simp [flattenChildrenR] at h
  · intro n t rest hp hq p e h
    simp only [flattenChildrenR, List.mem_append] at h
    rcases h with h | h
    · exact ⟨n, by simp [namesOf], hp (p ++ [n]) e h⟩
    · obtain ⟨m, hm, hpre⟩ := hq p e h
      refine ⟨m, ?_, hpre⟩
      simp only [namesOf, List.map_cons, List.mem_cons]
      exact Or.inr hm

theorem flattenR_keys {t : FsTree} {p : Pathc} {e : Pathc × RNode}
    (h : e ∈ flattenR p t) : isPre p e.1 = true :=
  flatten_keysR.1 t p e h

theorem flattenChildrenR_keys {cs : List (String × FsTree)} {p : Pathc} {e : Pathc × RNode}
    (h : e ∈ flattenChildrenR p cs) :
    ∃ n, n ∈ namesOf cs ∧ isPre (p ++ [n]) e.1 = true :=
  flatten_keysR.2 cs p e h

theorem flatten_keysL :
    (∀ (t : FsTree) (p : Pathc) (e : Pathc × LNode), e ∈ flattenL p t → isPre p e.1 = true)
    ∧ ∀ (cs : List (String × FsTree)) (p : Pathc) (e : Pathc × LNode),
        e ∈ flattenChildrenL p cs → ∃ n, n ∈ namesOf cs ∧ isPre (p ++ [n]) e.1 = true := by
  refine treeInd
    (fun t => ∀ p e, e ∈ flattenL p t → isPre p e.1 = true)
    (fun cs => ∀ p e, e ∈ flattenChildrenL p cs →
      ∃ n, n ∈ namesOf cs ∧ isPre (p ++ [n]) e.1 = true) ?_ ?_ ?_ ?_
  · intro c p e h
    simp only [flattenL, List.mem_singleton] at h
    subst h
    exact isPre_refl p
  · intro cs hq p e h
    simp only [flattenL, List.mem_cons] at h
    rcases h with h | h
    · subst h
      exact isPre_refl p
    · obtain ⟨n, _, hpre⟩ := hq p e h
      exact isPre_trans (isPre_append p [n]) hpre
  · intro p e h
    simp [flattenChildrenL] at h
  · intro n t rest hp hq p e h
    simp only [flattenChildrenL, List.mem_append] at h
    rcases h with h | h
    · exact ⟨n, by simp [namesOf], hp (p ++ [n]) e h⟩
    · obtain ⟨m, hm, hpre⟩ := hq p e h
      refine ⟨m, ?_, hpre⟩
      simp only [namesOf, List.map_cons, List.mem_cons]
      exact Or.inr hm

theorem flattenL_keys {t : FsTree} {p : Pathc} {e : Pathc × LNode}
    (h : e ∈ flattenL p t) : isPre p e.1 = true :=
  flatten_keysL.1 t p e h

theorem flattenChildrenL_keys {cs : List (String × FsTree)} {p : Pathc} {e : Pathc × LNode}
    (h : e ∈ flattenChildrenL p cs) :
    ∃ n, n ∈ namesOf cs ∧ isPre (p ++ [n]) e.1 = true :=
  flatten_keysL.2 cs p e h

theorem alookup_flattenChildrenR_not_name (cs : List (String × FsTree)) (p : Pathc)
    (n : String) (rel : Pathc) (hn : ¬ n ∈ namesOf cs) :
    alookup (flattenChildrenR p cs) (p ++ [n] ++ rel) = none := by
  rw [alookup_none_iff]
  intro e he heq
  obtain ⟨m, hm, hpm⟩ := flattenChildrenR_keys he
  rw [heq] at hpm
  have hpn : isPre (p ++ [n]) (p ++ [n] ++ rel) = true := isPre_append _ _
  exact hn (isPre_snoc_same hpm hpn ▸ hm)

theorem childrenOf_flattenChildrenR_not_name (cs : List (String × FsTree)) (p : Pathc)
    (n : String) (rel : Pathc) (hn : ¬ n ∈ namesOf cs) :
    childrenOf (flattenChildrenR p cs) (p ++ [n] ++ rel) = [] := by
  simp only [childrenOf, List.filter_eq_nil_iff]
  intro e he
  simp only [Bool.and_eq_true, not_and]
  intro hpre _
  obtain ⟨m, hm, hpm⟩ := flattenChildrenR_keys he
  have hpn : isPre (p ++ [n]) e.1 = true :=
    isPre_trans (isPre_append (p ++ [n]) rel) hpre
  exact absurd (isPre_snoc_same hpm hpn ▸ hm) hn

theorem childrenOf_cons_keep {ν : Type} (q : Pathc) (x : ν) (rest : List (Pathc × ν)) (p : Pathc)
    (h : (isPre p q && (q.length == p.length + 1)) = true) :
    childrenOf ((q, x) :: rest) p = (q, x) :: childrenOf rest p := by
  simp only [childrenOf, List.filter_cons, h]
  simp

theorem childrenOf_cons_drop {ν : Type} (q : Pathc) (x : ν) (rest : List (Pathc × ν)) (p : Pathc)
    (h : (isPre p q && (q.length == p.length + 1)) = false) :
    childrenOf ((q, x) :: rest) p = childrenOf rest p := by
  simp only [childrenOf, List.filter_cons, h]
  simp

theorem childrenOf_cons_drop_len {ν : Type} (q : Pathc) (x : ν) (rest : List (Pathc × ν)) (p : Pathc)
    (hne : q.length ≠ p.length + 1) :
    childrenOf ((q, x) :: rest) p = childrenOf rest p := by
  apply childrenOf_cons_drop
  have h2 : (q.length == p.length + 1) = false := beq_eq_false_iff_ne.mpr hne
  rw [h2, Bool.and_false]

theorem childrenOf_flattenChildren_deep (cs : List (String × FsTree)) (q p : Pathc)
    (hlen : p.length + 1 ≤ q.length) :
    childrenOf (flattenChildrenR q cs) p = [] := by
  simp only [childrenOf, List.filter_eq_nil_iff]
  intro e he
  obtain ⟨m, _, hpm⟩ := flattenChildrenR_keys he
  have hl := isPre_length hpm
  simp only [List.length_append, List.length_singleton] at hl
  simp only [Bool.and_eq_true, not_and, beq_iff_eq]
  intro _ heq
  omega

theorem childrenOf_flattenR_self (t : FsTree) (p : Pathc) (n : String) :
    childrenOf (flattenR (p ++ [n]) t) p = [(p ++ [n], topR t)] := by
  have hc : (isPre p (p ++ [n]) && ((p ++ [n]).length == p.length + 1)) = true := by
    rw [isPre_append]
    simp
  cases t with
  | file c =>
    simp only [flattenR, topR]
    rw [childrenOf_cons_keep _ _ _ _ hc]
    simp [childrenOf]
  | dir cs =>
    simp only [flattenR, topR]
    rw [childrenOf_cons_keep _ _ _ _ hc,
      childrenOf_flattenChildren_deep cs (p ++ [n]) p (by simp)]

theorem childrenOf_flattenChildren_self (cs : List (String × FsTree)) (p : Pathc) :
    childrenOf (flattenChildrenR p cs) p = cs.map (fun e => (p ++ [e.1], topR e.2)) := by
  induction cs with
  | nil => simp [flattenChildrenR, childrenOf]
  | cons hd rest ih =>
    obtain ⟨n, t⟩ := hd
    simp only [flattenChildrenR, childrenOf_append, List.map_cons]
    rw [childrenOf_flattenR_self, ih]
    simp

theorem childrenOf_flattenR_other (t : FsTree) (p : Pathc) (m n : String) (rel : Pathc)
    (hmn : m ≠ n) :
    childrenOf (flattenR (p ++ [m]) t) (p ++ [n] ++ rel) = [] := by
  simp only [childrenOf, List.filter_eq_nil_iff]
  intro e he
  simp only [Bool.and_eq_true, not_and]
  intro hpre _
  have h1 := flattenR_keys he
  have h2 : isPre (p ++ [n]) e.1 = true := isPre_trans (isPre_append _ _) hpre
  exact absurd (isPre_snoc_same h1 h2) hmn

theorem alookup_flattenR_other (t : FsTree) (p : Pathc) (m n : String) (rel : Pathc)
    (hmn : m ≠ n) :
    alookup (flattenR (p ++ [m]) t) (p ++ [n] ++ rel) = none := by
  rw [alookup_none_iff]
  intro e he heq
  have h1 := flattenR_keys he
  rw [heq] at h1
  exact hmn (isPre_snoc_same h1 (isPre_append _ _))

theorem findChild_cons_self {m : String} {t : FsTree} {rest : List (String × FsTree)}
    {n : String} (h : m = n) : findChild ((m, t) :: rest) n = some t := by
  simp [findChild, h]

theorem findChild_cons_other {m : String} {t : FsTree} {rest : List (String × FsTree)}
    {n : String} (h : ¬ m = n) : findChild ((m, t) :: rest) n = findChild rest n := by
  simp [findChild, h]

theorem subAt_dir_cons (cs : List (String × FsTree)) (n : String) (rel : Pathc) :
    subAt (.dir cs) (n :: rel) = (findChild cs n).bind (fun s => subAt s rel) := by
  cases h : findChild cs n <;> simp [subAt, h]

theorem childrenOf_flatten_main :
    (∀ t : FsTree, wfTree t = true → ∀ (p rel : Pathc),
        childrenOf (flattenR p t) (p ++ rel) =
          (childListOf (subAt t rel)).map (fun e => ((p ++ rel) ++ [e.1], topR e.2)))
    ∧ ∀ cs : List (String × FsTree), wfChildren cs = true → nodupB (namesOf cs) = true →
        ∀ (p : Pathc) (n : String) (rel : Pathc),
          childrenOf (flattenChildrenR p cs) ((p ++ [n]) ++ rel) =
            (childListOf ((findChild cs n).bind (fun s => subAt s rel))).map
              (fun e => (((p ++ [n]) ++ rel) ++ [e.1], topR e.2)) := by
  refine treeInd _ _ ?_ ?_ ?_ ?_
  · intro c _ p rel
    simp only [flattenR]
    rw [childrenOf_cons_drop_len _ _ _ _ (by simp only [List.length_append]; omega)]
    cases rel <;> simp [subAt, childListOf, childrenOf]
  · intro cs hQ hwf p rel
    obtain ⟨hnodup, hchild⟩ := wfTree_dir.1 hwf
    simp only [flattenR]
    rw [childrenOf_cons_drop_len _ _ _ _ (by simp only [List.length_append]; omega)]
    cases rel with
    | nil =>
      simp only [List.append_nil, subAt, childListOf]
      exact childrenOf_flattenChildren_self cs p
    | cons n rel2 =>
      have hpath : p ++ n :: rel2 = (p ++ [n]) ++ rel2 := by simp
      rw [hpath, subAt_dir_cons]
      exact hQ hchild hnodup p n rel2
  · intro _ _ p n rel
    simp [flattenChildrenR, childrenOf, findChild, childListOf]
  · intro m t rest hP hQ hwf hnodup p n rel
    obtain ⟨hnm, hwt, hwr⟩ := wfChildren_cons.1 hwf
    have hnodup2 : nodupB (namesOf ((m, t) :: rest)) = true := hnodup
    rw [show namesOf ((m, t) :: rest) = m :: namesOf rest from rfl] at hnodup2
    obtain ⟨hmem, hnd⟩ := nodupB_cons.1 hnodup2
    simp only [flattenChildrenR, childrenOf_append]
    by_cases hmn : m = n
    · subst hmn
      rw [findChild_cons_self rfl]
      rw [hP hwt (p ++ [m]) rel]
      rw [childrenOf_flattenChildrenR_not_name rest p m rel hmem]
      simp [Option.bind]
    · rw [findChild_cons_other hmn]
      rw [childrenOf_flattenR_other t p m n rel hmn]
      rw [hQ hwr hnd p n rel]
      simp

theorem alookup_flatten_main :
    (∀ t : FsTree, wfTree t = true → ∀ (p rel : Pathc),
        alookup (flattenR p t) (p ++ rel) = Option.map topR (subAt t rel))
    ∧ ∀ cs : List (String × FsTree), wfChildren cs = true → nodupB (namesOf cs) = true →
        ∀ (p : Pathc) (n : String) (rel : Pathc),
          alookup (flattenChildrenR p cs) ((p ++ [n]) ++ rel) =
            Option.map topR ((findChild cs n).bind (fun s => subAt s rel)) := by
  refine treeInd _ _ ?_ ?_ ?_ ?_
  · intro c _ p rel
    cases rel with
    | nil => simp [flattenR, alookup, subAt, topR]
    | cons r rs =>
      have hne : p ≠ p ++ r :: rs := by
        intro h
        have := congrArg List.length h
        simp at this
      simp [flattenR, alookup, hne, subAt]
  · intro cs hQ hwf p rel
    obtain ⟨hnodup, hchild⟩ := wfTree_dir.1 hwf
    cases rel with
    | nil => simp [flattenR, alookup, subAt, topR]
    | cons n rel2 =>
      have hne : p ≠ p ++ n :: rel2 := by
        intro h
        have := congrArg List.length h
        simp at this
      have hpath : p ++ n :: rel2 = (p ++ [n]) ++ rel2 := by simp
      simp only [flattenR, alookup, if_neg hne]
      rw [hpath, subAt_dir_cons]
      exact hQ hchild hnodup p n rel2
  · intro _ _ p n rel
    simp [flattenChildrenR, alookup, findChild]
  · intro m t rest hP hQ hwf hnodup p n rel
    obtain ⟨hnm, hwt, hwr⟩ := wfChildren_cons.1 hwf
    have hnodup2 : nodupB (namesOf ((m, t) :: rest)) = true := hnodup
    rw [show namesOf ((m, t) :: rest) = m :: namesOf rest from rfl] at hnodup2
    obtain ⟨hmem, hnd⟩ := nodupB_cons.1 hnodup2
    simp only [flattenChildrenR]
    by_cases hmn : m = n
    · subst hmn
      rw [findChild_cons_self rfl]
      have hleft := hP hwt (p ++ [m]) rel
      cases hsub : subAt t rel with
      | some v =>
        rw [hsub] at hleft
        rw [alookup_append_some _ hleft]
        simp [Option.bind, hsub]
      | none =>
        rw [hsub] at hleft
        rw [alookup_append_none _ hleft]
        rw [alookup_flattenChildrenR_not_name rest p m rel hmem]
        simp [Option.bind, hsub]
    · rw [findChild_cons_other hmn]
      rw [alookup_append_none _ (alookup_flattenR_other t p m n rel hmn)]
      exact hQ hwr hnd p n rel

theorem alookup_flattenChildrenL_not_name (cs : List (String × FsTree)) (p : Pathc)
    (n : String) (rel : Pathc) (hn : ¬ n ∈ namesOf cs) :
    alookup (flattenChildrenL p cs) (p ++ [n] ++ rel) = none := by
  rw [alookup_none_iff]
  intro e he heq
  obtain ⟨m, hm, hpm⟩ := flattenChildrenL_keys he
  rw [heq] at hpm
  exact hn (isPre_snoc_same hpm (isPre_append _ _) ▸ hm)

theorem alookup_flattenL_other (t : FsTree) (p : Pathc) (m n : String) (rel : Pathc)
    (hmn : m ≠ n) :
    alookup (flattenL (p ++ [m]) t) (p ++ [n] ++ rel) = none := by
  rw [alookup_none_iff]
  intro e he heq
  have h1 := flattenL_keys he
  rw [heq] at h1
  exact hmn (isPre_snoc_same h1 (isPre_append _ _))

theorem alookup_flattenL_main :
    (∀ t : FsTree, wfTree t = true → ∀ (p rel : Pathc),
        alookup (flattenL p t) (p ++ rel) = Option.map toLNode (subAt t rel))
    ∧ ∀ cs : List (String × FsTree), wfChildren cs = true → nodupB (namesOf cs) = true →
        ∀ (p : Pathc) (n : String) (rel : Pathc),
          alookup (flattenChildrenL p cs) ((p ++ [n]) ++ rel) =
            Option.map toLNode ((findChild cs n).bind (fun s => subAt s rel)) := by
  refine treeInd _ _ ?_ ?_ ?_ ?_
  · intro c _ p rel
    cases rel with
    | nil => simp [flattenL, alookup, subAt, toLNode]
    | cons r rs =>
      have hne : p ≠ p ++ r :: rs := by
        intro h
        have := congrArg List.length h
        simp at this
      simp [flattenL, alookup, hne, subAt]
  · intro cs hQ hwf p rel
    obtain ⟨hnodup, hchild⟩ := wfTree_dir.1 hwf
    cases rel with
    | nil => simp [flattenL, alookup, subAt, toLNode]
    | cons n rel2 =>
      have hne : p ≠ p ++ n :: rel2 := by
        intro h
        have := congrArg List.length h
        simp at this
      have hpath : p ++ n :: rel2 = (p ++ [n]) ++ rel2 := by simp
      simp only [flattenL, alookup, if_neg hne]
      rw [hpath, subAt_dir_cons]
      exact hQ hchild hnodup p n rel2
  · intro _ _ p n rel
    simp [flattenChildrenL, alookup, findChild]
  · intro m t rest hP hQ hwf hnodup p n rel
    obtain ⟨hnm, hwt, hwr⟩ := wfChildren_cons.1 hwf
    have hnodup2 : nodupB (namesOf ((m, t) :: rest)) = true := hnodup
    rw [show namesOf ((m, t) :: rest) = m :: namesOf rest from rfl] at hnodup2
    obtain ⟨hmem, hnd⟩ := nodupB_cons.1 hnodup2
    simp only [flattenChildrenL]
    by_cases hmn : m = n
    · subst hmn
      rw [findChild_cons_self rfl]
      have hleft := hP hwt (p ++ [m]) rel
      cases hsub : subAt t rel with
      | some v =>
        rw [hsub] at hleft
        rw [alookup_append_some _ hleft]
        simp [Option.bind, hsub]
      | none =>
        rw [hsub] at hleft
        rw [alookup_append_none _ hleft]
        rw [alookup_flattenChildrenL_not_name rest p m rel hmem]
        simp [Option.bind, hsub]
    · rw [findChild_cons_other hmn]
      rw [alookup_append_none _ (alookup_flattenL_other t p m n rel hmn)]
      exact hQ hwr hnd p n rel

theorem alookup_append_single_none {ν : Type} {A : List (Pathc × ν)} {p k : Pathc} {v : ν}
    (h : alookup A p = none) (hk : k ≠ p) : alookup (A ++ [(k, v)]) p = none := by
  rw [alookup_append_none _ h]
  simp [alookup, hk]

theorem ne_append_of_ne_nil {p q : Pathc} (hq : q ≠ []) : p ≠ p ++ q := by
  intro heq
  have := congrArg List.length heq
  simp only [List.length_append] at this
  have : q.length = 0 := by omega
  exact hq (List.eq_nil_of_length_eq_zero this)

theorem statR_some {f : Faults} (hst : ∀ q, f.statErr q = none) {fs : RemoteFS} {p : Pathc}
    {n : RNode} (h : alookup fs p = some n) : statR f fs p = .ok n := by
  simp [statR, hst p, h]

theorem statR_missing {f : Faults} (hst : ∀ q, f.statErr q = none) {fs : RemoteFS} {p : Pathc}
    (h : alookup fs p = none) : statR f fs p = .error .noSuchFile := by
  simp [statR, hst p, h]

theorem statR_ok_lookup {f : Faults} {fs : RemoteFS} {p : Pathc} {n : RNode}
    (h : statR f fs p = .ok n) : alookup fs p = some n := by
  unfold statR at h
  cases hse : f.statErr p with
  | some e => rw [hse] at h; cases h
  | none =>
    rw [hse] at h
    cases hl : alookup fs p with
    | some v => rw [hl] at h; cases h; rfl
    | none => rw [hl] at h; cases h

theorem mkdirFS_some {fs fs2 : RemoteFS} {p : Pathc} {mode : Nat}
    (h : mkdirFS fs p mode = some fs2) :
    fs2 = fs ++ [(p, .dir mode)] ∧ alookup fs p = none := by
  unfold mkdirFS at h
  cases hl : alookup fs p with
  | some v => rw [hl] at h; cases h
  | none => rw [hl] at h; cases h; exact ⟨rfl, rfl⟩

theorem make_dirs_go_fresh (f : Faults) (hst : ∀ q, f.statErr q = none) :
    ∀ (rest : List String) (pre : Pathc) (fs : RemoteFS),
    (∀ q : Pathc, q ≠ [] → isPre q rest = true → alookup fs (pre ++ q) = none) →
    make_dirs_go f fs pre rest = .ok (fs ++ dirsOfInits (neInitsFrom pre rest)) ()
  | [], pre, fs, h => by simp [make_dirs_go, neInitsFrom, dirsOfInits]
  | c :: cs, pre, fs, h => by
    have h1 : alookup fs (pre ++ [c]) = none := by
      apply h [c] (by simp)
      simp [isPre]
    simp only [make_dirs_go]
    rw [statR_missing hst h1]
    simp only [mkdirFS, h1]
    rw [make_dirs_go_fresh f hst cs (pre ++ [c]) (fs ++ [(pre ++ [c], RNode.dir 0o755)]) ?_]
    · simp [neInitsFrom, dirsOfInits]
    · intro q hq hpre
      have hfs : alookup fs ((pre ++ [c]) ++ q) = none := by
        rw [List.append_assoc]
        apply h (c :: q) (by simp)
        simpa [isPre] using hpre
      exact alookup_append_single_none hfs (ne_append_of_ne_nil hq)

theorem make_dirs_go_exists (f : Faults) (hst : ∀ q, f.statErr q = none) :
    ∀ (rest : List String) (pre : Pathc) (fs : RemoteFS),
    (∀ q : Pathc, q ≠ [] → isPre q rest = true → ∃ m, alookup fs (pre ++ q) = some (.dir m)) →
    make_dirs_go f fs pre rest = .ok fs ()
  | [], pre, fs, h => by simp [make_dirs_go]
  | c :: cs, pre, fs, h => by
    obtain ⟨m, hm⟩ := h [c] (by simp) (by simp [isPre])
    simp only [make_dirs_go]
    rw [statR_some hst hm]
    simp only [RNode.isDir, if_pos]
    apply make_dirs_go_exists f hst cs (pre ++ [c]) fs
    intro q hq hpre
    rw [List.append_assoc]
    apply h (c :: q) (by simp)
    simpa [isPre] using hpre

theorem make_dirs_go_cons (f : Faults) (fs : RemoteFS) (pre : Pathc) (c : String)
    (cs : List String) :
    make_dirs_go f fs pre (c :: cs) =
      match statR f fs (pre ++ [c]) with
      | .ok n =>
        if n.isDir then make_dirs_go f fs (pre ++ [c]) cs
        else .panicked ("The remote path " ++ dispPath (pre ++ [c]) ++ " is not a directory!") fs
      | .error _ =>
        match mkdirFS fs (pre ++ [c]) 0o755 with
        | some fs2 => make_dirs_go f fs2 (pre ++ [c]) cs
        | none => .panicked ("mkdir failed on " ++ dispPath (pre ++ [c])) fs := by
  simp only [make_dirs_go]

theorem make_dirs_go_cons_dir {f : Faults} (hst : ∀ q, f.statErr q = none) {fs : RemoteFS}
    {pre : Pathc} {c : String} (cs : List String) {m : Nat}
    (hm : alookup fs (pre ++ [c]) = some (.dir m)) :
    make_dirs_go f fs pre (c :: cs) = make_dirs_go f fs (pre ++ [c]) cs := by
  rw [make_dirs_go_cons, statR_some hst hm]
  simp [RNode.isDir]

theorem make_dirs_go_cons_missing {f : Faults} (hst : ∀ q, f.statErr q = none) {fs : RemoteFS}
    {pre : Pathc} {c : String} (cs : List String)
    (h1 : alookup fs (pre ++ [c]) = none) :
    make_dirs_go f fs pre (c :: cs) =
      make_dirs_go f (fs ++ [(pre ++ [c], .dir 0o755)]) (pre ++ [c]) cs := by
  rw [make_dirs_go_cons, statR_missing hst h1]
  simp [mkdirFS, h1]

theorem make_dirs_go_cons_conflict {f : Faults} (hst : ∀ q, f.statErr q = none) {fs : RemoteFS}
    {pre : Pathc} {c : String} (cs : List String) {nd : RNode}
    (h1 : alookup fs (pre ++ [c]) = some nd) (hd : nd.isDir = false) :
    make_dirs_go f fs pre (c :: cs) =
      .panicked ("The remote path " ++ dispPath (pre ++ [c]) ++ " is not a directory!") fs := by
  rw [make_dirs_go_cons, statR_some hst h1]
  simp [hd]

theorem make_dirs_go_last (f : Faults) (hst : ∀ q, f.statErr q = none) :
    ∀ (rest : List String) (pre : Pathc) (fs : RemoteFS), rest ≠ [] →
    (∀ q : Pathc, q ≠ [] → isPre q rest = true → q ≠ rest →
      ∃ m, alookup fs (pre ++ q) = some (.dir m)) →
    alookup fs (pre ++ rest) = none →
    make_dirs_go f fs pre rest = .ok (fs ++ [(pre ++ rest, .dir 0o755)]) ()
  | [], _, _, hne, _, _ => absurd rfl hne
  | [c], pre, fs, _, _, hlast => by
    rw [make_dirs_go_cons_missing hst [] hlast]
    simp [make_dirs_go]
  | c :: c2 :: cs, pre, fs, _, hpre, hlast => by
    obtain ⟨m, hm⟩ := hpre [c] (by simp) (by simp [isPre]) (by simp)
    rw [make_dirs_go_cons_dir hst (c2 :: cs) hm]
    rw [make_dirs_go_last f hst (c2 :: cs) (pre ++ [c]) fs (by simp) ?_ ?_]
    · simp
    · intro q hq hqpre hqne
      rw [List.append_assoc]
      apply hpre (c :: q) (by simp)
      · simpa [isPre] using hqpre
      · simp [hqne]
    · rw [List.append_assoc]
      simpa using hlast

theorem make_dirs_go_conflict (f : Faults) (hst : ∀ q, f.statErr q = none) :
    ∀ (q0 : List String) (c : String) (tail : List String) (pre : Pathc) (fs : RemoteFS),
    (∀ q : Pathc, q ≠ [] → isPre q q0 = true → ∃ m, alookup fs (pre ++ q) = some (.dir m)) →
    (∃ nd, alookup fs ((pre ++ q0) ++ [c]) = some nd ∧ nd.isDir = false) →
    make_dirs_go f fs pre (q0 ++ c :: tail) =
      .panicked ("The remote path " ++ dispPath ((pre ++ q0) ++ [c]) ++ " is not a directory!") fs
  | [], c, tail, pre, fs, _, hconf => by
    obtain ⟨nd, hnd, hdir⟩ := hconf
    rw [List.nil_append]
    rw [make_dirs_go_cons_conflict hst tail (by simpa using hnd) hdir]
    simp
  | d :: q0, c, tail, pre, fs, hpre, hconf => by
    obtain ⟨m, hm⟩ := hpre [d] (by simp) (by simp [isPre])
    rw [List.cons_append]
    rw [make_dirs_go_cons_dir hst (q0 ++ c :: tail) hm]
    rw [make_dirs_go_conflict f hst q0 c tail (pre ++ [d]) fs ?_ ?_]
    · simp
    · intro q hq hqpre
      rw [List.append_assoc]
      apply hpre (d :: q) (by simp)
      simpa [isPre] using hqpre
    · obtain ⟨nd, hnd, hdir⟩ := hconf
      refine ⟨nd, ?_, hdir⟩
      rw [show ((pre ++ [d]) ++ q0) ++ [c] = (pre ++ d :: q0) ++ [c] by simp]
      simpa using hnd

theorem make_dirs_go_mono (f : Faults) :
    ∀ (rest : List String) (pre : Pathc) (fs fs' : RemoteFS),
    make_dirs_go f fs pre rest = .ok fs' () →
    ∀ (p : Pathc) (v : RNode), alookup fs p = some v → alookup fs' p = some v
  | [], pre, fs, fs', h => by
    simp only [make_dirs_go] at h
    cases h
    exact fun p v hv => hv
  | c :: cs, pre, fs, fs', h => by
    rw [make_dirs_go_cons] at h
    cases hs : statR f fs (pre ++ [c]) with
    | ok n =>
      simp only [hs] at h
      by_cases hd : n.isDir = true
      · rw [if_pos hd] at h
        exact make_dirs_go_mono f cs (pre ++ [c]) fs fs' h
      · rw [if_neg hd] at h
        cases h
    | error e =>
      simp only [hs] at h
      cases hm : mkdirFS fs (pre ++ [c]) 0o755 with
      | some fs2 =>
        simp only [hm] at h
        obtain ⟨heq, _⟩ := mkdirFS_some hm
        intro p v hv
        apply make_dirs_go_mono f cs (pre ++ [c]) fs2 fs' h p v
        rw [heq]
        exact alookup_append_some _ hv
      | none =>
        simp only [hm] at h
        cases h

theorem make_dirs_go_dirs (f : Faults) :
    ∀ (rest : List String) (pre : Pathc) (fs fs' : RemoteFS),
    make_dirs_go f fs pre rest = .ok fs' () →
    ∀ q : Pathc, q ≠ [] → isPre q rest = true →
    ∃ m, alookup fs' (pre ++ q) = some (.dir m)
  | [], pre, fs, fs', h => by
    intro q hq hpre
    cases q with
    | nil => exact absurd rfl hq
    | cons a as => simp [isPre] at hpre
  | c :: cs, pre, fs, fs', h => by
    intro q hq hpre
    cases q with
    | nil => exact absurd rfl hq
    | cons a as =>
      simp only [isPre, Bool.and_eq_true, beq_iff_eq] at hpre
      obtain ⟨rfl, has⟩ := hpre
      rw [make_dirs_go_cons] at h
      cases hs : statR f fs (pre ++ [a]) with
      | ok n =>
        simp only [hs] at h
        by_cases hd : n.isDir = true
        · rw [if_pos hd] at h
          cases as with
          | nil =>
            cases n with
            | dir m =>
              refine ⟨m, ?_⟩
              exact make_dirs_go_mono f cs (pre ++ [a]) fs fs' h _ _ (statR_ok_lookup hs)
            | rfile c2 m2 l2 => simp [RNode.isDir] at hd
          | cons b bs =>
            have := make_dirs_go_dirs f cs (pre ++ [a]) fs fs' h (b :: bs) (by simp) has
            simpa using this
        · rw [if_neg hd] at h
          cases h
      | error e =>
        simp only [hs] at h
        cases hm : mkdirFS fs (pre ++ [a]) 0o755 with
        | some fs2 =>
          simp only [hm] at h
          obtain ⟨heq, hnone⟩ := mkdirFS_some hm
          cases as with
          | nil =>
            refine ⟨0o755, ?_⟩
            apply make_dirs_go_mono f cs (pre ++ [a]) fs2 fs' h
            rw [heq, alookup_append_none _ hnone]
            simp [alookup]
          | cons b bs =>
            have := make_dirs_go_dirs f cs (pre ++ [a]) fs2 fs' h (b :: bs) (by simp) has
            simpa using this
        | none =>
          simp only [hm] at h
          cases h

theorem isPre_append_short : ∀ (q r s : Pathc), isPre q (r ++ s) = true →
    q.length ≤ r.length → isPre q r = true
  | [], _, _, _, _ => rfl
  | a :: as, [], s, h, hl => by simp at hl
  | a :: as, b :: bs, s, h, hl => by
    simp only [List.cons_append, isPre, Bool.and_eq_true] at h ⊢
    refine ⟨h.1, ?_⟩
    exact isPre_append_short as bs s h.2 (by simpa using hl)

theorem isPre_drop_last {q r : Pathc} {n : String} (h : isPre q (r ++ [n]) = true)
    (hne : q ≠ r ++ [n]) : isPre q r = true := by
  have hl := isPre_length h
  simp only [List.length_append, List.length_singleton] at hl
  by_cases heq : q.length = r.length + 1
  · exact absurd (isPre_of_length_eq h (by simp [heq])).symm hne
  · exact isPre_append_short q r [n] h (by omega)

theorem ne_of_isPre_snoc {q rp : Pathc} {n : String} (h : isPre (rp ++ [n]) q = true) :
    rp ≠ q := by
  intro heq
  subst heq
  have := isPre_length h
  simp only [List.length_append, List.length_singleton] at this
  omega

theorem send_node_eq (f : Faults) (lp : Pathc) (t : FsTree) (rp : Pathc) (fs : RemoteFS) :
    send_node f lp t rp fs =
      (match (match statR f fs rp with
              | .ok n =>
                if n.isDir then Outcome.ok fs ()
                else .err (.ioErr .invalidInput ("The remote path " ++ dispPath rp ++ " is not a directory!")) fs
              | .error _ => make_dirs f fs rp) with
       | .ok fs1 _ =>
         (match t with
          | .file _ => .err (.ioErr .notADirectory ("read_dir on " ++ dispPath lp ++ ": not a directory")) fs1
          | .dir cs => send_children f lp cs rp fs1)
       | .err e st => .err e st
       | .panicked m st => .panicked m st) := by
  simp only [send_node]

theorem send_node_dir_exists {f : Faults} (hst : ∀ q, f.statErr q = none) {fs : RemoteFS}
    {rp : Pathc} {m : Nat} (hm : alookup fs rp = some (.dir m)) (lp : Pathc)
    (cs : List (String × FsTree)) :
    send_node f lp (.dir cs) rp fs = send_children f lp cs rp fs := by
  rw [send_node_eq, statR_some hst hm]
  simp [RNode.isDir]

theorem send_node_dir_creates {f : Faults} (hst : ∀ q, f.statErr q = none) {fs fs1 : RemoteFS}
    {rp : Pathc} (hnone : alookup fs rp = none) (hmk : make_dirs f fs rp = .ok fs1 ())
    (lp : Pathc) (cs : List (String × FsTree)) :
    send_node f lp (.dir cs) rp fs = send_children f lp cs rp fs1 := by
  rw [send_node_eq, statR_missing hst hnone, hmk]

theorem send_node_conflict {f : Faults} (hst : ∀ q, f.statErr q = none) {fs : RemoteFS}
    {rp : Pathc} {nd : RNode} (h : alookup fs rp = some nd) (hd : nd.isDir = false)
    (lp : Pathc) (t : FsTree) :
    send_node f lp t rp fs =
      .err (.ioErr .invalidInput ("The remote path " ++ dispPath rp ++ " is not a directory!")) fs := by
  rw [send_node_eq, statR_some hst h]
  simp [hd]

theorem send_node_panic {f : Faults} (hst : ∀ q, f.statErr q = none) {fs st : RemoteFS}
    {rp : Pathc} {m : String} (hnone : alookup fs rp = none)
    (hmk : make_dirs f fs rp = .panicked m st) (lp : Pathc) (t : FsTree) :
    send_node f lp t rp fs = .panicked m st := by
  rw [send_node_eq, statR_missing hst hnone, hmk]

theorem send_node_file_exists {f : Faults} (hst : ∀ q, f.statErr q = none) {fs : RemoteFS}
    {rp : Pathc} {m : Nat} (hm : alookup fs rp = some (.dir m)) (lp : Pathc) (c : List Nat) :
    send_node f lp (.file c) rp fs =
      .err (.ioErr .notADirectory ("read_dir on " ++ dispPath lp ++ ": not a directory")) fs := by
  rw [send_node_eq, statR_some hst hm]
  simp [RNode.isDir]

theorem send_node_file_creates {f : Faults} (hst : ∀ q, f.statErr q = none) {fs fs1 : RemoteFS}
    {rp : Pathc} (hnone : alookup fs rp = none) (hmk : make_dirs f fs rp = .ok fs1 ())
    (lp : Pathc) (c : List Nat) :
    send_node f lp (.file c) rp fs =
      .err (.ioErr .notADirectory ("read_dir on " ++ dispPath lp ++ ": not a directory")) fs1 := by
  rw [send_node_eq, statR_missing hst hnone, hmk]

theorem send_children_cons_file_ok {f : Faults} {rp : Pathc} {n : String}
    (hsf : f.sendFail (rp ++ [n]) = false) (lp : Pathc) (c : List Nat)
    (rest : List (String × FsTree)) (fs : RemoteFS) :
    send_children f lp ((n, .file c) :: rest) rp fs =
      send_children f lp rest rp (awrite fs (rp ++ [n]) (.rfile c 0o755 c.length)) := by
  simp only [send_children, hsf]
  simp

theorem send_children_cons_file_fail {f : Faults} {rp : Pathc} {n : String}
    (hsf : f.sendFail (rp ++ [n]) = true) (lp : Pathc) (c : List Nat)
    (rest : List (String × FsTree)) (fs : RemoteFS) :
    send_children f lp ((n, .file c) :: rest) rp fs = .err (.transferFail (rp ++ [n])) fs := by
  simp only [send_children, hsf]
  simp

theorem send_children_cons_dir_ok {f : Faults} {lp : Pathc} {n : String}
    {cs2 rest : List (String × FsTree)} {rp : Pathc} {fs fs2 : RemoteFS}
    (h : send_node f (lp ++ [n]) (.dir cs2) (rp ++ [n]) fs = .ok fs2 ()) :
    send_children f lp ((n, .dir cs2) :: rest) rp fs = send_children f lp rest rp fs2 := by
  simp only [send_children, h]

theorem send_children_cons_dir_err {f : Faults} {lp : Pathc} {n : String}
    {cs2 rest : List (String × FsTree)} {rp : Pathc} {fs st : RemoteFS} {e : SbsError}
    (h : send_node f (lp ++ [n]) (.dir cs2) (rp ++ [n]) fs = .err e st) :
    send_children f lp ((n, .dir cs2) :: rest) rp fs = .err e st := by
  simp only [send_children, h]

theorem send_children_cons_dir_panic {f : Faults} {lp : Pathc} {n : String}
    {cs2 rest : List (String × FsTree)} {rp : Pathc} {fs st : RemoteFS} {m : String}
    (h : send_node f (lp ++ [n]) (.dir cs2) (rp ++ [n]) fs = .panicked m st) :
    send_children f lp ((n, .dir cs2) :: rest) rp fs = .panicked m st := by
  simp only [send_children, h]

theorem send_fresh_main (f : Faults) (hst : ∀ q, f.statErr q = none) :
    (∀ t : FsTree, ∀ cs : List (String × FsTree), t = FsTree.dir cs →
      ∀ (lp rp : Pathc) (fs : RemoteFS), rp ≠ [] → wfTree t = true →
      (∀ q, isPre rp q = true → f.sendFail q = false) →
      (∀ q : Pathc, q ≠ [] → isPre q rp = true → q ≠ rp → ∃ m, alookup fs q = some (.dir m)) →
      (∀ q, isPre rp q = true → alookup fs q = none) →
      send_node f lp t rp fs = .ok (fs ++ flattenR rp t) ())
    ∧ ∀ cs : List (String × FsTree), ∀ (lp rp : Pathc) (fs : RemoteFS),
      wfChildren cs = true → nodupB (namesOf cs) = true →
      (∀ q n, n ∈ namesOf cs → isPre (rp ++ [n]) q = true → f.sendFail q = false) →
      (∀ q : Pathc, q ≠ [] → isPre q rp = true → ∃ m, alookup fs q = some (.dir m)) →
      (∀ q n, n ∈ namesOf cs → isPre (rp ++ [n]) q = true → alookup fs q = none) →
      send_children f lp cs rp fs = .ok (fs ++ flattenChildrenR rp cs) () := by
  refine treeInd _ _ ?_ ?_ ?_ ?_
  · intro c cs h
    exact FsTree.noConfusion h
  · intro cs hQ cs' heq lp rp fs hrp hwf hsf hpre hfresh
    injection heq with h2
    subst h2
    obtain ⟨hnodup, hchild⟩ := wfTree_dir.1 hwf
    have hnone : alookup fs rp = none := hfresh rp (isPre_refl rp)
    have hmk : make_dirs f fs rp = .ok (fs ++ [(rp, .dir 0o755)]) () := by
      unfold make_dirs
      have := make_dirs_go_last f hst rp [] fs hrp ?_ ?_
      · simpa using this
      · intro q hq hqpre hqne
        simpa using hpre q hq hqpre hqne
      · simpa using hnone
    rw [send_node_dir_creates hst hnone hmk lp cs]
    rw [hQ lp rp (fs ++ [(rp, RNode.dir 0o755)]) hchild hnodup ?_ ?_ ?_]
    · simp [flattenR]
    · intro q n hn hq
      exact hsf q (isPre_trans (isPre_append rp [n]) hq)
    · intro q hq hqpre
      by_cases hqr : q = rp
      · subst hqr
        refine ⟨0o755, ?_⟩
        rw [alookup_append_none _ hnone]
        simp [alookup]
      · obtain ⟨m, hm⟩ := hpre q hq hqpre hqr
        exact ⟨m, alookup_append_some _ hm⟩
    · intro q n hn hq
      have h1 : alookup fs q = none :=
        hfresh q (isPre_trans (isPre_append rp [n]) hq)
      exact alookup_append_single_none h1 (ne_of_isPre_snoc hq)
  · intro lp rp fs _ _ _ _ _
    simp [send_children, flattenChildrenR]
  · intro n t rest hP hQ lp rp fs hwfc hnodup hsf hpredirs hfresh
    obtain ⟨hname, hwt, hwrest⟩ := wfChildren_cons.1 hwfc
    have hnodup2 : nodupB (namesOf ((n, t) :: rest)) = true := hnodup
    rw [show namesOf ((n, t) :: rest) = n :: namesOf rest from rfl] at hnodup2
    obtain ⟨hmem, hnd⟩ := nodupB_cons.1 hnodup2
    have hmemn : n ∈ namesOf ((n, t) :: rest) := by simp [namesOf]
    cases t with
    | file c =>
      have hsfn : f.sendFail (rp ++ [n]) = false :=
        hsf (rp ++ [n]) n hmemn (isPre_refl _)
      have hfr : alookup fs (rp ++ [n]) = none :=
        hfresh (rp ++ [n]) n hmemn (isPre_refl _)
      rw [send_children_cons_file_ok hsfn lp c rest fs]
      rw [awrite_none _ hfr]
      rw [hQ lp rp (fs ++ [(rp ++ [n], RNode.rfile c 0o755 c.length)]) hwrest hnd ?_ ?_ ?_]
      · simp [flattenChildrenR, flattenR]
      · intro q n2 hn2 hq
        exact hsf q n2 (by simp [namesOf]; right; simpa [namesOf] using hn2) hq
      · intro q hq hqpre
        obtain ⟨m, hm⟩ := hpredirs q hq hqpre
        exact ⟨m, alookup_append_some _ hm⟩
      · intro q n2 hn2 hq
        have h1 : alookup fs q = none :=
          hfresh q n2 (by simp [namesOf]; right; simpa [namesOf] using hn2) hq
        apply alookup_append_single_none h1
        intro heq
        subst heq
        have hn2n : n2 ≠ n := by
          intro hh
          subst hh
          exact hmem (by simpa [namesOf] using hn2)
        exact hn2n (isPre_snoc_same hq (isPre_refl _))
    | dir cs2 =>
      have hsend : send_node f (lp ++ [n]) (.dir cs2) (rp ++ [n]) fs =
          .ok (fs ++ flattenR (rp ++ [n]) (.dir cs2)) () := by
        apply hP cs2 rfl (lp ++ [n]) (rp ++ [n]) fs (by simp) hwt
        · intro q hq
          exact hsf q n hmemn hq
        · intro q hq hqpre hqne
          apply hpredirs q hq
          exact isPre_drop_last hqpre hqne
        · intro q hq
          exact hfresh q n hmemn hq
      rw [send_children_cons_dir_ok hsend]
      rw [hQ lp rp (fs ++ flattenR (rp ++ [n]) (.dir cs2)) hwrest hnd ?_ ?_ ?_]
      · simp [flattenChildrenR]
      · intro q n2 hn2 hq
        exact hsf q n2 (by simp [namesOf]; right; simpa [namesOf] using hn2) hq
      · intro q hq hqpre
        obtain ⟨m, hm⟩ := hpredirs q hq hqpre
        exact ⟨m, alookup_append_some _ hm⟩
      · intro q n2 hn2 hq
        have h1 : alookup fs q = none :=
          hfresh q n2 (by simp [namesOf]; right; simpa [namesOf] using hn2) hq
        rw [alookup_append_none _ h1]
        rw [alookup_none_iff]
        intro e he heq
        subst heq
        have hkey := flattenR_keys he
        have hn2n : n2 ≠ n := by
          intro hh
          subst hh
          exact hmem (by simpa [namesOf] using hn2)
        exact hn2n (isPre_snoc_same hq hkey)

theorem findChild_of_mem_nodup : ∀ (cs : List (String × FsTree)) (n : String) (s : FsTree),
    nodupB (namesOf cs) = true → (n, s) ∈ cs → findChild cs n = some s
  | [], n, s, _, hmem => by simp at hmem
  | (m, t) :: rest, n, s, hnodup, hmem => by
    have hnodup2 : nodupB (m :: namesOf rest) = true := hnodup
    obtain ⟨hmemn, hnd⟩ := nodupB_cons.1 hnodup2
    rcases List.mem_cons.1 hmem with heq | hmem2
    · injection heq with h1 h2
      rw [findChild_cons_self h1.symm, h2]
    · have hmn : m ≠ n := by
        intro hh
        apply hmemn
        rw [hh]
        exact List.mem_map.2 ⟨(n, s), hmem2, rfl⟩
      rw [findChild_cons_other hmn]
      exact findChild_of_mem_nodup rest n s hnd hmem2

theorem subAt_child {cs : List (String × FsTree)} {n : String} {s : FsTree} (rel : Pathc)
    (hf : findChild cs n = some s) : subAt (.dir cs) (n :: rel) = subAt s rel := by
  rw [subAt_dir_cons, hf]
  rfl

theorem TreeFsMatch_child {fs : RemoteFS} {p : Pathc} {cs : List (String × FsTree)}
    {n : String} {s : FsTree} (h : TreeFsMatch fs p (.dir cs))
    (hnodup : nodupB (namesOf cs) = true) (hmem : (n, s) ∈ cs) :
    TreeFsMatch fs (p ++ [n]) s := by
  have hf := findChild_of_mem_nodup cs n s hnodup hmem
  constructor
  · intro rel cs2 hsub
    have hsub2 : subAt (.dir cs) (n :: rel) = some (.dir cs2) := by
      rw [subAt_child rel hf]
      exact hsub
    have := h.1 (n :: rel) cs2 hsub2
    simpa [List.append_assoc] using this
  · intro rel c hsub
    have hsub2 : subAt (.dir cs) (n :: rel) = some (.file c) := by
      rw [subAt_child rel hf]
      exact hsub
    have := h.2 (n :: rel) c hsub2
    simpa [List.append_assoc] using this

theorem depth_le_children : ∀ (cs : List (String × FsTree)) (n : String) (s : FsTree),
    (n, s) ∈ cs → depth s ≤ depthChildren cs
  | [], n, s, hmem => by simp at hmem
  | (m, t) :: rest, n, s, hmem => by
    rcases List.mem_cons.1 hmem with heq | hmem2
    · injection heq with h1 h2
      rw [h2]
      simp only [depthChildren]
      exact le_max_left _ _
    · calc depth s ≤ depthChildren rest := depth_le_children rest n s hmem2
        _ ≤ depthChildren ((m, t) :: rest) := by
          simp only [depthChildren]
          exact le_max_right _ _

theorem file_name_snoc {q : Pathc} {n : String} (h : wfNameB n = true) :
    file_name (q ++ [n]) = some n := by
  unfold wfNameB at h
  simp only [Bool.and_eq_true, bne_iff_ne] at h
  obtain ⟨⟨h1, h2⟩, h3⟩ := h
  unfold file_name
  rw [List.filter_append]
  have hkeep : List.filter (fun c => !(c == "." || c == "")) [n] = [n] := by
    simp [h1, h2]
  rw [hkeep]
  rw [List.getLast?_concat]
  simp [h3]

theorem readdirR_noFaults {fs : RemoteFS} {rp : Pathc} {m : Nat}
    (h : alookup fs rp = some (.dir m)) :
    readdirR noFaults fs rp = .ok (childrenOf fs rp) := by
  simp [readdirR, h, noFaults]

theorem create_dir_all_go_exists :
    ∀ (rest : List String) (pre : Pathc) (lfs : LocalFS),
    (∀ q : Pathc, q ≠ [] → isPre q rest = true → alookup lfs (pre ++ q) = some .ldir) →
    create_dir_all_go lfs pre rest = .ok lfs
  | [], pre, lfs, _ => rfl
  | c :: cs, pre, lfs, h => by
    have h1 := h [c] (by simp) (by simp [isPre])
    simp only [create_dir_all_go, h1]
    apply create_dir_all_go_exists cs (pre ++ [c]) lfs
    intro q hq hqpre
    rw [List.append_assoc]
    apply h (c :: q) (by simp)
    simpa [isPre] using hqpre

theorem create_dir_all_go_cons_dir {lfs : LocalFS} {pre : Pathc} {c : String}
    (cs : List String) (h1 : alookup lfs (pre ++ [c]) = some .ldir) :
    create_dir_all_go lfs pre (c :: cs) = create_dir_all_go lfs (pre ++ [c]) cs := by
  simp only [create_dir_all_go, h1]

theorem create_dir_all_go_cons_missing {lfs : LocalFS} {pre : Pathc} {c : String}
    (cs : List String) (h1 : alookup lfs (pre ++ [c]) = none) :
    create_dir_all_go lfs pre (c :: cs) =
      create_dir_all_go (lfs ++ [(pre ++ [c], .ldir)]) (pre ++ [c]) cs := by
  simp only [create_dir_all_go, h1]

theorem create_dir_all_go_last :
    ∀ (rest : List String) (pre : Pathc) (lfs : LocalFS), rest ≠ [] →
    (∀ q : Pathc, q ≠ [] → isPre q rest = true → q ≠ rest → alookup lfs (pre ++ q) = some .ldir) →
    alookup lfs (pre ++ rest) = none →
    create_dir_all_go lfs pre rest = .ok (lfs ++ [(pre ++ rest, .ldir)])
  | [], _, _, hne, _, _ => absurd rfl hne
  | [c], pre, lfs, _, _, hlast => by
    simp [create_dir_all_go, hlast]
  | c :: c2 :: cs, pre, lfs, _, hpre, hlast => by
    have h1 := hpre [c] (by simp) (by simp [isPre]) (by simp)
    rw [create_dir_all_go_cons_dir (c2 :: cs) h1]
    rw [create_dir_all_go_last (c2 :: cs) (pre ++ [c]) lfs (by simp) ?_ ?_]
    · simp
    · intro q hq hqpre hqne
      rw [List.append_assoc]
      apply hpre (c :: q) (by simp)
      · simpa [isPre] using hqpre
      · simp [hqne]
    · rw [List.append_assoc]
      simpa using hlast

theorem receive_directory_step {f : Faults} {fs : RemoteFS} {fuel : Nat} {lp rp : Pathc}
    {lfs lfs1 : LocalFS} {entries : List (Pathc × RNode)}
    (hc : create_dir_all lfs lp = .ok lfs1)
    (hr : readdirR f fs rp = .ok entries) :
    receive_directory f fs (fuel + 1) lp rp lfs =
      receive_entries (receive_directory f fs fuel) fs lp rp entries lfs1 := by
  simp only [receive_directory, hc, hr]

theorem receive_entries_nil (recurse : Pathc → Pathc → LocalFS → Outcome LocalFS Unit)
    (fs : RemoteFS) (lp rp : Pathc) (lfs : LocalFS) :
    receive_entries recurse fs lp rp [] lfs = .ok lfs () := by
  simp only [receive_entries]

theorem receive_entries_skip {pb : Pathc} (hfn : file_name pb = none)
    (recurse : Pathc → Pathc → LocalFS → Outcome LocalFS Unit)
    (fs : RemoteFS) (lp rp : Pathc) (st2 : RNode)
    (rest : List (Pathc × RNode)) (lfs : LocalFS) :
    receive_entries recurse fs lp rp ((pb, st2) :: rest) lfs =
      receive_entries recurse fs lp rp rest lfs := by
  simp only [receive_entries, hfn]

theorem receive_entries_file {recurse : Pathc → Pathc → LocalFS → Outcome LocalFS Unit}
    {fs : RemoteFS} {lp rp : Pathc}
    {pb : Pathc} {st2 : RNode} {n : String}
    (hfn : file_name pb = some n) (hdir : st2.isDir = false)
    {c : List Nat} {lfs lfs1 : LocalFS} (rest : List (Pathc × RNode))
    (hrecv : scp_recv fs (rp ++ [n]) = .ok c)
    (hw : file_create lfs (lp ++ [n]) c = .ok lfs1) :
    receive_entries recurse fs lp rp ((pb, st2) :: rest) lfs =
      receive_entries recurse fs lp rp rest lfs1 := by
  simp [receive_entries, hfn, hdir, hrecv, hw]

theorem receive_entries_dir {recurse : Pathc → Pathc → LocalFS → Outcome LocalFS Unit}
    {fs : RemoteFS} {lp rp : Pathc}
    {pb : Pathc} {st2 : RNode} {n : String}
    (hfn : file_name pb = some n) (hdir : st2.isDir = true)
    {lfs lfs1 lfs2 : LocalFS} (rest : List (Pathc × RNode))
    (hc : create_dir_all lfs (lp ++ [n]) = .ok lfs1)
    (hrec : recurse (lp ++ [n]) (rp ++ [n]) lfs1 = .ok lfs2 ()) :
    receive_entries recurse fs lp rp ((pb, st2) :: rest) lfs =
      receive_entries recurse fs lp rp rest lfs2 := by
  simp [receive_entries, hfn, hdir, hc, hrec]

theorem receive_entries_ok (fs : RemoteFS) (fuel : Nat)
    (IH : ∀ (cs2 : List (String × FsTree)) (lq2 rq2 : Pathc) (lfs2 : LocalFS),
      wfTree (.dir cs2) = true → depth (.dir cs2) ≤ fuel →
      TreeFsMatch fs rq2 (.dir cs2) →
      (∀ q : Pathc, q ≠ [] → isPre q lq2 = true → alookup lfs2 q = some .ldir) →
      (∀ q : Pathc, isPre lq2 q = true → q ≠ lq2 → alookup lfs2 q = none) →
      receive_directory noFaults fs fuel lq2 rq2 lfs2 =
        .ok (lfs2 ++ flattenChildrenL lq2 cs2) ()) :
    ∀ (csuf : List (String × FsTree)) (lq rq : Pathc) (lfs : LocalFS),
      wfChildren csuf = true → nodupB (namesOf csuf) = true →
      (∀ n s, (n, s) ∈ csuf → TreeFsMatch fs (rq ++ [n]) s) →
      (∀ n s, (n, s) ∈ csuf → depth s ≤ fuel) →
      (∀ q : Pathc, q ≠ [] → isPre q lq = true → alookup lfs q = some .ldir) →
      (∀ q n, n ∈ namesOf csuf → isPre (lq ++ [n]) q = true → alookup lfs q = none) →
      receive_entries (receive_directory noFaults fs fuel) fs lq rq
        (csuf.map (fun e => (rq ++ [e.1], topR e.2))) lfs
        = .ok (lfs ++ flattenChildrenL lq csuf) ()
  | [], lq, rq, lfs, _, _, _, _, _, _ => by
    rw [show (List.map (fun e => (rq ++ [e.1], topR e.2)) ([] : List (String × FsTree))) = [] from rfl]
    rw [receive_entries_nil]
    simp [flattenChildrenL]
  | (n, s) :: rest, lq, rq, lfs, hwfc, hnodup, hm, hd, hlq, hfresh => by
    obtain ⟨hname, hwt, hwrest⟩ := wfChildren_cons.1 hwfc
    have hnodup2 : nodupB (n :: namesOf rest) = true := hnodup
    obtain ⟨hmem, hnd⟩ := nodupB_cons.1 hnodup2
    have hmemn : (n, s) ∈ (n, s) :: rest := List.mem_cons_self _ _
    have hfn := file_name_snoc (q := rq) hname
    have hmatchn := hm n s hmemn
    simp only [List.map_cons]
    cases s with
    | file c =>
      have hlook : alookup fs ((rq ++ [n])) = some (.rfile c 0o755 c.length) := by
        have := hmatchn.2 [] c rfl
        simpa using this
      have hrecv : scp_recv fs (rq ++ [n]) = .ok c := by
        simp [scp_recv, hlook]
      have hlfsnone : alookup lfs (lq ++ [n]) = none :=
        hfresh (lq ++ [n]) n (by simp [namesOf]) (isPre_refl _)
      have hw : file_create lfs (lq ++ [n]) c = .ok (lfs ++ [(lq ++ [n], .lfile c)]) := by
        simp only [file_create, hlfsnone]
        rw [awrite_none _ hlfsnone]
      rw [receive_entries_file hfn (show (topR (FsTree.file c)).isDir = false from rfl) _ hrecv hw]
      rw [receive_entries_ok fs fuel IH rest lq rq (lfs ++ [(lq ++ [n], LNode.lfile c)])
        hwrest hnd ?_ ?_ ?_ ?_]
      · simp [flattenChildrenL, flattenL]
      · intro n2 s2 hmem2
        exact hm n2 s2 (List.mem_cons_of_mem _ hmem2)
      · intro n2 s2 hmem2
        exact hd n2 s2 (List.mem_cons_of_mem _ hmem2)
      · intro q hq hqpre
        exact alookup_append_some _ (hlq q hq hqpre)
      · intro q n2 hn2 hq
        have h1 : alookup lfs q = none :=
          hfresh q n2 (by simp [namesOf]; right; simpa [namesOf] using hn2) hq
        apply alookup_append_single_none h1
        intro heq
        subst heq
        have hn2n : n2 ≠ n := by
          intro hh
          subst hh
          exact hmem (by simpa [namesOf] using hn2)
        exact hn2n (isPre_snoc_same hq (isPre_refl _))
    | dir cs2 =>
      have hlfsnone : alookup lfs (lq ++ [n]) = none :=
        hfresh (lq ++ [n]) n (by simp [namesOf]) (isPre_refl _)
      have hc : create_dir_all lfs (lq ++ [n]) = .ok (lfs ++ [(lq ++ [n], .ldir)]) := by
        unfold create_dir_all
        have := create_dir_all_go_last (lq ++ [n]) [] lfs (by simp) ?_ ?_
        · simpa using this
        · intro q hq hqpre hqne
          simp only [List.nil_append]
          exact hlq q hq (isPre_drop_last hqpre hqne)
        · simpa using hlfsnone
      have hrec : receive_directory noFaults fs fuel (lq ++ [n]) (rq ++ [n])
          (lfs ++ [(lq ++ [n], LNode.ldir)]) =
          .ok ((lfs ++ [(lq ++ [n], LNode.ldir)]) ++ flattenChildrenL (lq ++ [n]) cs2) () := by
        apply IH cs2 (lq ++ [n]) (rq ++ [n]) _ hwt (hd n (.dir cs2) hmemn) hmatchn ?_ ?_
        · intro q hq hqpre
          by_cases hql : q = lq ++ [n]
          · subst hql
            rw [alookup_append_none _ hlfsnone]
            simp [alookup]
          · exact alookup_append_some _ (hlq q hq (isPre_drop_last hqpre hql))
        · intro q hq hqne
          apply alookup_append_single_none (hfresh q n (by simp [namesOf]) hq)
          exact fun heq => hqne heq.symm
      rw [receive_entries_dir hfn (show (topR (FsTree.dir cs2)).isDir = true from rfl) _ hc hrec]
      rw [receive_entries_ok fs fuel IH rest lq rq _ hwrest hnd ?_ ?_ ?_ ?_]
      · simp [flattenChildrenL, flattenL]
      · intro n2 s2 hmem2
        exact hm n2 s2 (List.mem_cons_of_mem _ hmem2)
      · intro n2 s2 hmem2
        exact hd n2 s2 (List.mem_cons_of_mem _ hmem2)
      · intro q hq hqpre
        rw [List.append_assoc]
        exact alookup_append_some _ (hlq q hq hqpre)
      · intro q n2 hn2 hq
        have h1 : alookup lfs q = none :=
          hfresh q n2 (by simp [namesOf]; right; simpa [namesOf] using hn2) hq
        have hn2n : n2 ≠ n := by
          intro hh
          subst hh
          exact hmem (by simpa [namesOf] using hn2)
        rw [List.append_assoc, alookup_append_none _ h1]
        rw [alookup_none_iff]
        intro e he heq
        subst heq
        rcases List.mem_append.1 he with he1 | he2
        · have : (lq ++ [n]) = e.1 := by
            rcases List.mem_singleton.1 he1 with h
            rw [h]
          rw [← this] at hq
          exact hn2n (isPre_snoc_same hq (isPre_refl _))
        · have hkey := flattenChildrenL_keys he2
          obtain ⟨m2, _, hpm⟩ := hkey
          have hkey2 : isPre (lq ++ [n]) e.1 = true :=
            isPre_trans (isPre_append _ _) hpm
          exact hn2n (isPre_snoc_same hq hkey2)

theorem receive_main (fs : RemoteFS) :
    ∀ (fuel : Nat) (cs : List (String × FsTree)) (lq rq : Pathc) (lfs : LocalFS),
      wfTree (.dir cs) = true → depth (.dir cs) ≤ fuel →
      TreeFsMatch fs rq (.dir cs) →
      (∀ q : Pathc, q ≠ [] → isPre q lq = true → alookup lfs q = some .ldir) →
      (∀ q : Pathc, isPre lq q = true → q ≠ lq → alookup lfs q = none) →
      receive_directory noFaults fs fuel lq rq lfs =
        .ok (lfs ++ flattenChildrenL lq cs) () := by
  intro fuel
  induction fuel with
  | zero =>
    intro cs lq rq lfs _ hd _ _ _
    simp only [depth] at hd
    omega
  | succ k ihf =>
    intro cs lq rq lfs hwf hd hmatch hlq hfresh
    obtain ⟨hnodup, hchild⟩ := wfTree_dir.1 hwf
    obtain ⟨⟨m, hm⟩, hchildren⟩ := hmatch.1 [] cs rfl
    simp only [List.append_nil] at hm hchildren
    have hc : create_dir_all lfs lq = .ok lfs := by
      unfold create_dir_all
      apply create_dir_all_go_exists
      intro q hq hqpre
      simpa using hlq q hq hqpre
    rw [receive_directory_step hc (readdirR_noFaults hm)]
    rw [hchildren]
    rw [receive_entries_ok fs k ihf cs lq rq lfs hchild hnodup ?_ ?_ hlq ?_]
    · intro n s hmem
      exact TreeFsMatch_child hmatch hnodup hmem
    · intro n s hmem
      have h1 := depth_le_children cs n s hmem
      simp only [depth] at hd
      omega
    · intro q n hn hq
      apply hfresh q (isPre_trans (isPre_append lq [n]) hq)
      exact (ne_of_isPre_snoc hq).symm

theorem create_dir_all_go_fresh :
    ∀ (rest : List String) (pre : Pathc) (lfs : LocalFS),
    (∀ q : Pathc, q ≠ [] → isPre q rest = true → alookup lfs (pre ++ q) = none) →
    create_dir_all_go lfs pre rest = .ok (lfs ++ ldirsOfInits (neInitsFrom pre rest))
  | [], pre, lfs, _ => by simp [create_dir_all_go, neInitsFrom, ldirsOfInits]
  | c :: cs, pre, lfs, h => by
    have h1 : alookup lfs (pre ++ [c]) = none := by
      apply h [c] (by simp)
      simp [isPre]
    rw [create_dir_all_go_cons_missing cs h1]
    rw [create_dir_all_go_fresh cs (pre ++ [c]) (lfs ++ [(pre ++ [c], LNode.ldir)]) ?_]
    · simp [neInitsFrom, ldirsOfInits]
    · intro q hq hpre
      have hfs : alookup lfs ((pre ++ [c]) ++ q) = none := by
        rw [List.append_assoc]
        apply h (c :: q) (by simp)
        simpa [isPre] using hpre
      exact alookup_append_single_none hfs (ne_append_of_ne_nil hq)

theorem mem_neInitsFrom : ∀ (rest : List String) (pre : Pathc) (q : Pathc),
    q ≠ [] → isPre q rest = true → (pre ++ q) ∈ neInitsFrom pre rest
  | rest, pre, [], hq, _ => absurd rfl hq
  | [], pre, c :: q2, _, hpre => by simp [isPre] at hpre
  | c0 :: rest2, pre, c :: q2, _, hpre => by
    simp only [isPre, Bool.and_eq_true, beq_iff_eq] at hpre
    obtain ⟨rfl, hq2⟩ := hpre
    cases q2 with
    | nil => simp [neInitsFrom]
    | cons d q3 =>
      simp only [neInitsFrom, List.mem_cons]
      right
      have := mem_neInitsFrom rest2 (pre ++ [c]) (d :: q3) (by simp) hq2
      simpa using this

theorem neInitsFrom_mem_length : ∀ (rest : List String) (pre : Pathc) (p2 : Pathc),
    p2 ∈ neInitsFrom pre rest → p2.length ≤ pre.length + rest.length
  | [], _, _, h => by simp [neInitsFrom] at h
  | c :: cs, pre, p2, h => by
    simp only [neInitsFrom, List.mem_cons] at h
    rcases h with rfl | h
    · simp
    · have := neInitsFrom_mem_length cs (pre ++ [c]) p2 h
      simp only [List.length_append, List.length_cons, List.length_nil] at this ⊢
      omega

theorem alookup_constMap_mem {ν : Type} (v : ν) : ∀ (ps : List Pathc) (q : Pathc),
    q ∈ ps → alookup (ps.map (fun p => (p, v))) q = some v
  | [], q, h => by simp at h
  | p0 :: ps, q, h => by
    by_cases hpq : p0 = q
    · simp [alookup, hpq]
    · rcases List.mem_cons.1 h with h1 | h2
      · exact absurd h1.symm hpq
      · simp only [List.map_cons, alookup, if_neg hpq]
        exact alookup_constMap_mem v ps q h2

theorem alookup_constMap_long {ν : Type} (v : ν) (ps : List Pathc) (q : Pathc)
    (h : ∀ p2 ∈ ps, p2.length < q.length) :
    alookup (ps.map (fun p => (p, v))) q = none := by
  rw [alookup_none_iff]
  intro e he heq
  obtain ⟨p2, hp2, hpe⟩ := List.mem_map.1 he
  have h1 := h p2 hp2
  rw [← hpe] at heq
  simp only at heq
  rw [heq] at h1
  omega

theorem lookup_remoteAfterPush (cs : List (String × FsTree)) (rp : Pathc)
    (hwf : wfTree (.dir cs) = true) (hrp : rp ≠ []) :
    ∀ rel : Pathc, alookup (remoteAfterPush rp cs) (rp ++ rel) =
      Option.map topR (subAt (.dir cs) rel) := by
  intro rel
  obtain ⟨hnodup, hchild⟩ := wfTree_dir.1 hwf
  unfold remoteAfterPush
  cases rel with
  | nil =>
    have hmem : rp ∈ neInitsFrom [] rp := by
      have := mem_neInitsFrom rp [] rp hrp (isPre_refl rp)
      simpa using this
    have hsome : alookup (dirsOfInits (neInitsFrom [] rp)) (rp ++ []) = some (RNode.dir 0o755) := by
      unfold dirsOfInits
      rw [List.append_nil]
      exact alookup_constMap_mem _ _ _ hmem
    rw [alookup_append_some _ hsome]
    simp [subAt, topR]
  | cons n rel2 =>
    have hA : alookup (dirsOfInits (neInitsFrom [] rp)) (rp ++ n :: rel2) = none := by
      unfold dirsOfInits
      apply alookup_constMap_long
      intro p2 hp2
      have := neInitsFrom_mem_length rp [] p2 hp2
      simp only [List.length_nil, List.length_cons, List.length_append, Nat.zero_add] at this ⊢
      omega
    rw [alookup_append_none _ hA]
    rw [show rp ++ n :: rel2 = (rp ++ [n]) ++ rel2 by simp]
    rw [alookup_flatten_main.2 cs hchild hnodup rp n rel2]
    rw [subAt_dir_cons]

theorem children_remoteAfterPush (cs : List (String × FsTree)) (rp : Pathc)
    (hwf : wfTree (.dir cs) = true) (hrp : rp ≠ []) :
    ∀ rel : Pathc, childrenOf (remoteAfterPush rp cs) (rp ++ rel) =
      (childListOf (subAt (.dir cs) rel)).map (fun e => ((rp ++ rel) ++ [e.1], topR e.2)) := by
  intro rel
  obtain ⟨hnodup, hchild⟩ := wfTree_dir.1 hwf
  unfold remoteAfterPush
  rw [childrenOf_append]
  have hA : childrenOf (dirsOfInits (neInitsFrom [] rp)) (rp ++ rel) = [] := by
    apply childrenOf_nil_of_short
    intro e he
    obtain ⟨p2, hp2, hpe⟩ := List.mem_map.1 he
    rw [← hpe]
    have := neInitsFrom_mem_length rp [] p2 hp2
    simp only [List.length_nil, List.length_append, Nat.zero_add] at this ⊢
    omega
  rw [hA, List.nil_append]
  cases rel with
  | nil =>
    simp only [subAt, childListOf, List.append_nil]
    exact childrenOf_flattenChildren_self cs rp
  | cons n rel2 =>
    rw [show rp ++ n :: rel2 = (rp ++ [n]) ++ rel2 by simp]
    rw [childrenOf_flatten_main.2 cs hchild hnodup rp n rel2]
    rw [subAt_dir_cons]

theorem treeFsMatch_remoteAfterPush (cs : List (String × FsTree)) (rp : Pathc)
    (hwf : wfTree (.dir cs) = true) (hrp : rp ≠ []) :
    TreeFsMatch (remoteAfterPush rp cs) rp (.dir cs) := by
  constructor
  · intro rel cs2 hsub
    constructor
    · refine ⟨0o755, ?_⟩
      rw [lookup_remoteAfterPush cs rp hwf hrp rel, hsub]
      rfl
    · rw [children_remoteAfterPush cs rp hwf hrp rel, hsub]
      rfl
  · intro rel c hsub
    rw [lookup_remoteAfterPush cs rp hwf hrp rel, hsub]
    rfl

theorem lookup_localAfterPull (cs : List (String × FsTree)) (lp : Pathc)
    (hwf : wfTree (.dir cs) = true) (hlp : lp ≠ []) :
    ∀ rel : Pathc, alookup (localAfterPull lp cs) (lp ++ rel) =
      Option.map toLNode (subAt (.dir cs) rel) := by
  intro rel
  obtain ⟨hnodup, hchild⟩ := wfTree_dir.1 hwf
  unfold localAfterPull
  cases rel with
  | nil =>
    have hmem : lp ∈ neInitsFrom [] lp := by
      have := mem_neInitsFrom lp [] lp hlp (isPre_refl lp)
      simpa using this
    have hsome : alookup (ldirsOfInits (neInitsFrom [] lp)) (lp ++ []) = some LNode.ldir := by
      unfold ldirsOfInits
      rw [List.append_nil]
      exact alookup_constMap_mem _ _ _ hmem
    rw [alookup_append_some _ hsome]
    simp [subAt, toLNode]
  | cons n rel2 =>
    have hA : alookup (ldirsOfInits (neInitsFrom [] lp)) (lp ++ n :: rel2) = none := by
      unfold ldirsOfInits
      apply alookup_constMap_long
      intro p2 hp2
      have := neInitsFrom_mem_length lp [] p2 hp2
      simp only [List.length_nil, List.length_cons, List.length_append, Nat.zero_add] at this ⊢
      omega
    rw [alookup_append_none _ hA]
    rw [show lp ++ n :: rel2 = (lp ++ [n]) ++ rel2 by simp]
    rw [alookup_flattenL_main.2 cs hchild hnodup lp n rel2]
    rw [subAt_dir_cons]

theorem send_top (cs : List (String × FsTree)) (lp rp : Pathc)
    (hwf : wfTree (.dir cs) = true) (hrp : rp ≠ []) :
    send_directory noFaults lp (some (.dir cs)) rp [] = .ok (remoteAfterPush rp cs) () := by
  have hst : ∀ q, noFaults.statErr q = none := fun _ => rfl
  obtain ⟨hnodup, hchild⟩ := wfTree_dir.1 hwf
  show send_node noFaults lp (.dir cs) rp [] = _
  have hmk : make_dirs noFaults [] rp = .ok (dirsOfInits (neInitsFrom [] rp)) () := by
    unfold make_dirs
    have := make_dirs_go_fresh noFaults hst rp [] [] (fun q hq hpre => rfl)
    simpa using this
  rw [send_node_dir_creates hst (show alookup ([] : RemoteFS) rp = none from rfl) hmk lp cs]
  rw [(send_fresh_main noFaults hst).2 cs lp rp (dirsOfInits (neInitsFrom [] rp)) hchild hnodup ?_ ?_ ?_]
  · rfl
  · intro q n _ _
    rfl
  · intro q hq hqpre
    refine ⟨0o755, ?_⟩
    unfold dirsOfInits
    apply alookup_constMap_mem
    have := mem_neInitsFrom rp [] q hq hqpre
    simpa using this
  · intro q n hn hq
    unfold dirsOfInits
    apply alookup_constMap_long
    intro p2 hp2
    have h1 := neInitsFrom_mem_length rp [] p2 hp2
    have h2 := isPre_length hq
    simp only [List.length_nil, List.length_append, List.length_cons, Nat.zero_add] at h1 h2 ⊢
    omega

theorem receive_top (fs : RemoteFS) (cs : List (String × FsTree)) (lp rp : Pathc) (k : Nat)
    (hwf : wfTree (.dir cs) = true) (hlp : lp ≠ []) (hd : depth (.dir cs) ≤ k + 1)
    (hmatch : TreeFsMatch fs rp (.dir cs)) :
    receive_directory noFaults fs (k + 1) lp rp [] =
      .ok (ldirsOfInits (neInitsFrom [] lp) ++ flattenChildrenL lp cs) () := by
  obtain ⟨hnodup, hchild⟩ := wfTree_dir.1 hwf
  obtain ⟨⟨m, hm⟩, hchildren⟩ := hmatch.1 [] cs rfl
  simp only [List.append_nil] at hm hchildren
  have hc : create_dir_all [] lp = .ok (ldirsOfInits (neInitsFrom [] lp)) := by
    unfold create_dir_all
    have := create_dir_all_go_fresh lp [] [] (fun q hq hpre => rfl)
    simpa using this
  rw [receive_directory_step hc (readdirR_noFaults hm)]
  rw [hchildren]
  rw [receive_entries_ok fs k (receive_main fs k) cs lp rp _ hchild hnodup ?_ ?_ ?_ ?_]
  · intro n s hmem
    exact TreeFsMatch_child hmatch hnodup hmem
  · intro n s hmem
    have h1 := depth_le_children cs n s hmem
    simp only [depth] at hd
    omega
  · intro q hq hqpre
    unfold ldirsOfInits
    apply alookup_constMap_mem
    have := mem_neInitsFrom lp [] q hq hqpre
    simpa using this
  · intro q n hn hq
    unfold ldirsOfInits
    apply alookup_constMap_long
    intro p2 hp2
    have h1 := neInitsFrom_mem_length lp [] p2 hp2
    have h2 := isPre_length hq
    simp only [List.length_nil, List.length_append, List.length_cons, Nat.zero_add] at h1 h2 ⊢
    omega

theorem compile_shift : ∀ (cmds : List Command) (x y : String),
    List.foldl (fun a c => a ++ c.command ++ "\n") (x ++ y) cmds
      = x ++ List.foldl (fun a c => a ++ c.command ++ "\n") y cmds
  | [], _, _ => rfl
  | c :: cmds, x, y => by
    simp only [List.foldl_cons]
    rw [String.append_assoc x y c.command, String.append_assoc x (y ++ c.command) "\n"]
    exact compile_shift cmds x ((y ++ c.command) ++ "\n")

theorem compile_commands_nil : compile_commands [] = "" := rfl

theorem compile_commands_cons (c : Command) (cmds : List Command) :
    compile_commands (c :: cmds) = (c.command ++ "\n") ++ compile_commands cmds := by
  unfold compile_commands
  simp only [List.foldl_cons]
  rw [String.empty_append]
  conv_lhs => rw [show c.command ++ "\n" = (c.command ++ "\n") ++ "" from (String.append_empty _).symm]
  exact compile_shift cmds (c.command ++ "\n") ""

theorem string_join_cons (a : String) (l : List String) :
    String.join (a :: l) = a ++ String.join l := by
  apply String.ext
  simp [String.data_append]

theorem compile_commands_eq_join : ∀ cmds : List Command,
    compile_commands cmds = String.join (cmds.map (fun c => c.command ++ "\n"))
  | [] => rfl
  | c :: cmds => by
    rw [compile_commands_cons, compile_commands_eq_join cmds, List.map_cons, string_join_cons]

/-- C1: Round-trip identity. Pushing a well-formed local directory tree with
child list cs to the nonempty path rp of an empty remote filesystem yields
exactly the flattening of the tree below rp; pulling that remote path back
into an empty local filesystem at the nonempty path lp succeeds and yields
exactly the flattening of the tree below lp; and the local node found at
lp ++ rel is exactly the node of the original tree at rel for every relative
path rel — the same file names, directory structure and byte contents.
Permission bits are not compared: pulled local nodes carry none. -/
theorem c1_round_trip (cs : List (String × FsTree)) (lp rp : Pathc) (k : Nat)
    (hwf : wfTree (.dir cs) = true) (hrp : rp ≠ []) (hlp : lp ≠ [])
    (hd : depth (.dir cs) ≤ k + 1) :
    send_directory noFaults lp (some (.dir cs)) rp [] = .ok (remoteAfterPush rp cs) ()
    ∧ receive_directory noFaults (remoteAfterPush rp cs) (k + 1) lp rp [] =
        .ok (localAfterPull lp cs) ()
    ∧ ∀ rel : Pathc, alookup (localAfterPull lp cs) (lp ++ rel) =
        Option.map toLNode (subAt (.dir cs) rel) := by
  refine ⟨send_top cs lp rp hwf hrp, ?_, lookup_localAfterPull cs lp hwf hlp⟩
  exact receive_top (remoteAfterPush rp cs) cs lp rp k hwf hlp hd
    (treeFsMatch_remoteAfterPush cs rp hwf hrp)

/-- Witness for C1: the round trip at a concrete tree and concrete paths. -/
theorem c1_round_trip_witness :
    (wfTree (.dir csW) = true ∧ (["r", "p"] : Pathc) ≠ [] ∧ (["l"] : Pathc) ≠ []
      ∧ depth (.dir csW) ≤ 3)
    ∧ send_directory noFaults ["l"] (some (.dir csW)) ["r", "p"] [] =
        .ok (remoteAfterPush ["r", "p"] csW) ()
    ∧ receive_directory noFaults (remoteAfterPush ["r", "p"] csW) 3 ["l"] ["r", "p"] [] =
        .ok (localAfterPull ["l"] csW) () :=
  ⟨⟨by decide, by decide, by decide, by decide⟩,
    (c1_round_trip csW ["l"] ["r", "p"] 2 (by decide) (by decide) (by decide) (by decide)).1,
    (c1_round_trip csW ["l"] ["r", "p"] 2 (by decide) (by decide) (by decide) (by decide)).2.1⟩

/-- C7: Materializer idempotence. If make_dirs on a fault-free session turns
the remote filesystem fs into fs2 and reports success, then running
make_dirs again on the same path is a no-op: it succeeds and returns fs2
unchanged — no additional directory is created and no error or panic is
raised. -/
theorem c7_make_dirs_idempotent (rp : Pathc) (fs fs2 : RemoteFS)
    (h : make_dirs noFaults fs rp = .ok fs2 ()) :
    make_dirs noFaults fs2 rp = .ok fs2 () := by
  unfold make_dirs at h ⊢
  apply make_dirs_go_exists noFaults (fun _ => rfl)
  intro q hq hpre
  exact make_dirs_go_dirs noFaults rp [] fs fs2 h q hq hpre

/-- Witness for C7: materializing x/y twice over an empty remote filesystem. -/
theorem c7_make_dirs_idempotent_witness :
    make_dirs noFaults [] ["x", "y"] =
      .ok [(["x"], RNode.dir 0o755), (["x", "y"], RNode.dir 0o755)] ()
    ∧ make_dirs noFaults [(["x"], RNode.dir 0o755), (["x", "y"], RNode.dir 0o755)] ["x", "y"] =
      .ok [(["x"], RNode.dir 0o755), (["x", "y"], RNode.dir 0o755)] () :=
  ⟨rfl, c7_make_dirs_idempotent ["x", "y"] [] _ rfl⟩

/-- C3: Phase filtering. execute_commands submits exactly the script compiled
from the commands whose phase flag equals the requested phase, in original
order; on the list A-pre, B-post, C-pre the pre phase submits the script of
A then C and the post phase submits the script of B; and when no command
matches, the empty script is still submitted and the call returns the
captured output without error. -/
theorem c3_phase_filtering :
    (∀ (ex : String → Except SbsError String) (cmds : List Command) (phase : Bool),
      execute_commands ex cmds phase =
        ex (compile_commands (cmds.filter (fun c => c.execute_after_compilation == phase))))
    ∧ (∀ (a b c da db dc : String) (ex : String → Except SbsError String),
      execute_commands ex [Command.mk a da false, Command.mk b db true, Command.mk c dc false] false =
        ex ((a ++ "\n") ++ (c ++ "\n"))
      ∧ execute_commands ex [Command.mk a da false, Command.mk b db true, Command.mk c dc false] true =
        ex (b ++ "\n"))
    ∧ ∀ (cmds : List Command) (phase : Bool) (g : String → String),
      cmds.filter (fun c => c.execute_after_compilation == phase) = [] →
      execute_commands (okExec g) cmds phase = .ok (g "") := by
  refine ⟨fun ex cmds phase => rfl, ?_, ?_⟩
  · intro a b c da db dc ex
    constructor
    · show ex (compile_commands [Command.mk a da false, Command.mk c dc false]) = _
      rw [compile_commands_cons, compile_commands_cons, compile_commands_nil,
        String.append_empty]
    · show ex (compile_commands [Command.mk b db true]) = _
      rw [compile_commands_cons, compile_commands_nil, String.append_empty]
  · intro cmds phase g hfilter
    show okExec g (compile_commands (cmds.filter fun c => c.execute_after_compilation == phase)) = _
    rw [hfilter]
    rfl

/-- Witness for C3: a pre-only list matched against the post phase executes
the empty script and returns its output. -/
theorem c3_phase_filtering_witness :
    ([Command.mk "A" "d" false].filter (fun c => c.execute_after_compilation == true) = [])
    ∧ execute_commands (okExec id) [Command.mk "A" "d" false] true = .ok (id "") :=
  ⟨by decide, c3_phase_filtering.2.2 [Command.mk "A" "d" false] true id (by decide)⟩

/-- Counterexample for C6 as stated: for the single pre command A, the
script submitted to the remote side is the newline-TERMINATED text A
followed by a newline, not the plain newline-separator join of the matching
texts, which would be A without a trailing newline. -/
theorem c6_script_counterexample :
    execute_commands (fun s => .ok s) [Command.mk "A" "d" false] false = .ok "A\n"
    ∧ specJoinedScript [Command.mk "A" "d" false] false = "A"
    ∧ ("A\n" : String) ≠ "A" :=
  ⟨rfl, rfl, by decide⟩

/-- C6 amended: the script submitted by execute_commands is the
concatenation of the phase-matching command texts each followed by one
newline, in original list order — newline-terminated lines, including a
trailing newline after the last command — with the command texts inserted
literally, without any escaping or quoting. -/
theorem c6_script_amended (ex : String → Except SbsError String) (cmds : List Command)
    (phase : Bool) :
    execute_commands ex cmds phase =
      ex (String.join ((cmds.filter (fun c => c.execute_after_compilation == phase)).map
        (fun c => c.command ++ "\n"))) := by
  show ex (compile_commands _) = _
  rw [compile_commands_eq_join]

/-- Counterexample for C2 as stated: with the remote path a already existing
as a regular file, make_dirs on the target a/b does not report the conflict
through its return value at all — the embedded call panics, exactly as the
Rust code does with the panic macro, so there is no Result error to return. -/
theorem c2_conflict_counterexample :
    isPanic (make_dirs noFaults [(["a"], RNode.rfile [] 0o755 0)] ["a", "b"]) = true
    ∧ isErrO (make_dirs noFaults [(["a"], RNode.rfile [] 0o755 0)] ["a", "b"]) = false :=
  ⟨rfl, rfl⟩

/-- C2 amended: conflict handling as the code actually behaves. When the
full remote target itself exists as a regular file, send_directory returns
an InvalidInput error naming that path through its Result and leaves the
remote filesystem untouched. When a proper prefix of the target exists as a
regular file (every shorter prefix being a directory), make_dirs aborts by
panicking with a message naming the offending prefix — not through a Result
value — and performs no write at all; and send_directory on such a target
aborts through the same panic, equally without writing at or below the
conflict. -/
theorem c2_conflict_amended (f : Faults) (hst : ∀ q, f.statErr q = none) :
    (∀ (lp rp : Pathc) (t : FsTree) (fs : RemoteFS) (c0 : List Nat) (m l : Nat),
      alookup fs rp = some (.rfile c0 m l) →
      send_directory f lp (some t) rp fs =
        .err (.ioErr .invalidInput ("The remote path " ++ dispPath rp ++ " is not a directory!")) fs)
    ∧ (∀ (pre0 : Pathc) (c : String) (tail : List String) (fs : RemoteFS) (c0 : List Nat) (m l : Nat),
      (∀ q : Pathc, q ≠ [] → isPre q pre0 = true → ∃ m2, alookup fs q = some (.dir m2)) →
      alookup fs (pre0 ++ [c]) = some (.rfile c0 m l) →
      make_dirs f fs (pre0 ++ c :: tail) =
        .panicked ("The remote path " ++ dispPath (pre0 ++ [c]) ++ " is not a directory!") fs)
    ∧ ∀ (lp : Pathc) (t : FsTree) (pre0 : Pathc) (c : String) (tail : List String)
        (fs : RemoteFS) (c0 : List Nat) (m l : Nat),
      (∀ q : Pathc, q ≠ [] → isPre q pre0 = true → ∃ m2, alookup fs q = some (.dir m2)) →
      alookup fs (pre0 ++ [c]) = some (.rfile c0 m l) →
      alookup fs (pre0 ++ c :: tail) = none →
      send_directory f lp (some t) (pre0 ++ c :: tail) fs =
        .panicked ("The remote path " ++ dispPath (pre0 ++ [c]) ++ " is not a directory!") fs := by
  have hmk : ∀ (pre0 : Pathc) (c : String) (tail : List String) (fs : RemoteFS)
      (c0 : List Nat) (m l : Nat),
      (∀ q : Pathc, q ≠ [] → isPre q pre0 = true → ∃ m2, alookup fs q = some (.dir m2)) →
      alookup fs (pre0 ++ [c]) = some (.rfile c0 m l) →
      make_dirs f fs (pre0 ++ c :: tail) =
        .panicked ("The remote path " ++ dispPath (pre0 ++ [c]) ++ " is not a directory!") fs := by
    intro pre0 c tail fs c0 m l hpre hconf
    unfold make_dirs
    have := make_dirs_go_conflict f hst pre0 c tail [] fs ?_ ?_
    · simpa using this
    · intro q hq hqpre
      simpa using hpre q hq hqpre
    · refine ⟨.rfile c0 m l, ?_, rfl⟩
      simpa using hconf
  refine ⟨?_, hmk, ?_⟩
  · intro lp rp t fs c0 m l hconf
    exact send_node_conflict hst hconf rfl lp t
  · intro lp t pre0 c tail fs c0 m l hpre hconf hnone
    exact send_node_panic hst hnone (hmk pre0 c tail fs c0 m l hpre hconf) lp t

/-- Witness for C2 amended: the prefix-conflict panic at a concrete state. -/
theorem c2_conflict_amended_witness :
    make_dirs noFaults [(["a"], RNode.rfile [] 0o755 0)] ["a", "b"] =
      .panicked ("The remote path " ++ dispPath ["a"] ++ " is not a directory!")
        [(["a"], RNode.rfile [] 0o755 0)] := by
  have h := (c2_conflict_amended noFaults (fun _ => rfl)).2.1 [] "a" ["b"]
    [(["a"], RNode.rfile [] 0o755 0)] [] 0o755 0 ?_ rfl
  · simpa using h
  · intro q hq hpre
    cases q with
    | nil => exact absurd rfl hq
    | cons a as => simp [isPre] at hpre

/-- C4: Partial-failure propagation. Pushing a directory whose children in
traversal order are x, y (a file) and z to a fresh remote path, with the SCP
send stream failing exactly on the remote path of y, returns that transfer
failure: the remote filesystem of the returned error contains the created
directories and the x subtree only, and nothing was transferred at the
remote path of z — z was never attempted. -/
theorem c4_partial_failure (x z : FsTree) (nx ny nz : String) (cy : List Nat)
    (lp rp : Pathc) (hrp : rp ≠ [])
    (hwf : wfTree (.dir [(nx, x), (ny, .file cy), (nz, z)]) = true) :
    send_directory (failAt (rp ++ [ny])) lp
        (some (.dir [(nx, x), (ny, .file cy), (nz, z)])) rp []
      = .err (.transferFail (rp ++ [ny]))
          (dirsOfInits (neInitsFrom [] rp) ++ flattenR (rp ++ [nx]) x)
    ∧ alookup (dirsOfInits (neInitsFrom [] rp) ++ flattenR (rp ++ [nx]) x) (rp ++ [nz]) = none := by
  have hst : ∀ q, (failAt (rp ++ [ny])).statErr q = none := fun _ => rfl
  obtain ⟨hnodup, hchild⟩ := wfTree_dir.1 hwf
  have hnodup2 : nodupB (nx :: ny :: nz :: []) = true := hnodup
  obtain ⟨hnx, hnodup3⟩ := nodupB_cons.1 hnodup2
  obtain ⟨hny, _⟩ := nodupB_cons.1 hnodup3
  have hnxny : nx ≠ ny := by
    intro h
    exact hnx (by simp [h])
  have hnxnz : nx ≠ nz := by
    intro h
    exact hnx (by simp [h])
  obtain ⟨hwnx, hwx, hchild2⟩ := wfChildren_cons.1 hchild
  have hApre : ∀ q : Pathc, q ≠ [] → isPre q rp = true →
      ∃ m2, alookup (dirsOfInits (neInitsFrom [] rp)) q = some (.dir m2) := by
    intro q hq hqpre
    refine ⟨0o755, ?_⟩
    unfold dirsOfInits
    apply alookup_constMap_mem
    have := mem_neInitsFrom rp [] q hq hqpre
    simpa using this
  have hAfresh : ∀ q : Pathc, rp.length < q.length →
      alookup (dirsOfInits (neInitsFrom [] rp)) q = none := by
    intro q hlen
    unfold dirsOfInits
    apply alookup_constMap_long
    intro p2 hp2
    have := neInitsFrom_mem_length rp [] p2 hp2
    simp only [List.length_nil, Nat.zero_add] at this
    omega
  constructor
  · show send_node (failAt (rp ++ [ny])) lp _ rp [] = _
    have hmk : make_dirs (failAt (rp ++ [ny])) [] rp =
        .ok (dirsOfInits (neInitsFrom [] rp)) () := by
      unfold make_dirs
      have := make_dirs_go_fresh (failAt (rp ++ [ny])) hst rp [] [] (fun q hq hpre => rfl)
      simpa using this
    rw [send_node_dir_creates hst (show alookup ([] : RemoteFS) rp = none from rfl) hmk lp _]
    have hxstep : send_children (failAt (rp ++ [ny])) lp
        [(nx, x), (ny, .file cy), (nz, z)] rp (dirsOfInits (neInitsFrom [] rp)) =
        send_children (failAt (rp ++ [ny])) lp [(ny, .file cy), (nz, z)] rp
          (dirsOfInits (neInitsFrom [] rp) ++ flattenR (rp ++ [nx]) x) := by
      cases x with
      | file cx =>
        have hsfx : (failAt (rp ++ [ny])).sendFail (rp ++ [nx]) = false := by
          simp only [failAt]
          apply beq_eq_false_iff_ne.2
          intro h
          exact hnxny (by simpa using List.append_cancel_left h)
        rw [send_children_cons_file_ok hsfx lp cx _ _]
        rw [awrite_none _ (hAfresh (rp ++ [nx]) (by simp))]
        rfl
      | dir cs1 =>
        have hsend := (send_fresh_main (failAt (rp ++ [ny])) hst).1 (.dir cs1) cs1 rfl
          (lp ++ [nx]) (rp ++ [nx]) (dirsOfInits (neInitsFrom [] rp)) (by simp) hwx ?_ ?_ ?_
        · exact send_children_cons_dir_ok hsend
        · intro q hq
          simp only [failAt]
          apply beq_eq_false_iff_ne.2
          intro h
          subst h
          exact hnxny (isPre_snoc_same hq (isPre_refl _))
        · intro q hq hqpre hqne
          exact hApre q hq (isPre_drop_last hqpre hqne)
        · intro q hq
          apply hAfresh
          have := isPre_length hq
          simp only [List.length_append, List.length_cons, List.length_nil] at this
          omega
    rw [hxstep]
    have hsfy : (failAt (rp ++ [ny])).sendFail (rp ++ [ny]) = true := by
      simp [failAt]
    rw [send_children_cons_file_fail hsfy lp cy _ _]
  · rw [alookup_append_none _ (hAfresh (rp ++ [nz]) (by simp))]
    rw [alookup_none_iff]
    intro e he heq
    have hkey := flattenR_keys he
    rw [heq] at hkey
    exact hnxnz (isPre_snoc_same hkey (isPre_refl _))

/-- Witness for C4 at concrete children x, y, z under the remote path r. -/
theorem c4_partial_failure_witness :
    send_directory (failAt (["r"] ++ ["y"])) ["l"]
        (some (.dir [("x", .file [9]), ("y", .file [1]), ("z", .file [2])])) ["r"] []
      = .err (.transferFail (["r"] ++ ["y"]))
          (dirsOfInits (neInitsFrom [] ["r"]) ++ flattenR (["r"] ++ ["x"]) (.file [9]))
    ∧ alookup (dirsOfInits (neInitsFrom [] ["r"]) ++ flattenR (["r"] ++ ["x"]) (.file [9]))
        (["r"] ++ ["z"]) = none :=
  c4_partial_failure (.file [9]) (.file [2]) "x" "y" "z" [1] ["l"] ["r"]
    (by decide) (by decide)

theorem make_dirs_go_no_err (f : Faults) :
    ∀ (rest : List String) (pre : Pathc) (fs : RemoteFS) (e : SbsError) (st : RemoteFS),
    make_dirs_go f fs pre rest ≠ .err e st
  | [], pre, fs, e, st => by simp [make_dirs_go]
  | c :: cs, pre, fs, e, st => by
    rw [make_dirs_go_cons]
    split
    · split
      · exact make_dirs_go_no_err f cs (pre ++ [c]) fs e st
      · intro h
        cases h
    · split
      · exact make_dirs_go_no_err f cs (pre ++ [c]) _ e st
      · intro h
        cases h

theorem send_never_notFound :
    (∀ t : FsTree, ∀ (f : Faults) (lp rp : Pathc) (fs : RemoteFS),
      errKindOf (send_node f lp t rp fs) ≠ some ErrKind.notFound)
    ∧ ∀ cs : List (String × FsTree), ∀ (f : Faults) (lp rp : Pathc) (fs : RemoteFS),
      errKindOf (send_children f lp cs rp fs) ≠ some ErrKind.notFound := by
  refine treeInd _ _ ?_ ?_ ?_ ?_
  · intro c f lp rp fs
    rw [send_node_eq]
    split
    · intro h
      simp [errKindOf] at h
    · next e2 st heq =>
      split at heq
      · split at heq
        · simp at heq
        · cases heq
          intro h
          simp [errKindOf] at h
      · exact absurd heq (make_dirs_go_no_err f rp [] fs e2 st)
    · intro h
      simp [errKindOf] at h
  · intro cs hQ f lp rp fs
    rw [send_node_eq]
    split
    · next fs1 v heq =>
      exact hQ f lp rp fs1
    · next e2 st heq =>
      split at heq
      · split at heq
        · simp at heq
        · cases heq
          intro h
          simp [errKindOf] at h
      · exact absurd heq (make_dirs_go_no_err f rp [] fs e2 st)
    · intro h
      simp [errKindOf] at h
  · intro f lp rp fs
    intro h
    simp [send_children, errKindOf] at h
  · intro n t rest hP hQ f lp rp fs
    cases t with
    | file c =>
      by_cases hsf : f.sendFail (rp ++ [n]) = true
      · rw [send_children_cons_file_fail hsf]
        intro h
        simp [errKindOf] at h
      · rw [send_children_cons_file_ok (by revert hsf; cases f.sendFail (rp ++ [n]) <;> simp)]
        exact hQ f lp rp _
    | dir cs2 =>
      cases hA : send_node f (lp ++ [n]) (.dir cs2) (rp ++ [n]) fs with
      | ok fs2 v =>
        cases v
        rw [send_children_cons_dir_ok hA]
        exact hQ f lp rp fs2
      | err e2 st =>
        rw [send_children_cons_dir_err hA]
        have := hP f (lp ++ [n]) (rp ++ [n]) fs
        rw [hA] at this
        exact this
      | panicked m st =>
        rw [send_children_cons_dir_panic hA]
        intro h
        simp [errKindOf] at h

/-- Counterexample for C5 as stated: a local path that exists as a regular
file does not produce a NotFound failure — the push fails with the
not-a-directory error from reading the local path as a directory. -/
theorem c5_notfound_counterexample :
    errKindOf (send_directory noFaults ["l"] (some (.file [])) ["r"] [(["r"], RNode.dir 0o755)])
      = some ErrKind.notADirectory
    ∧ errKindOf (send_directory noFaults ["l"] (some (.file [])) ["r"] [(["r"], RNode.dir 0o755)])
      ≠ some ErrKind.notFound :=
  ⟨rfl, by decide⟩

/-- C5 amended: send_directory fails with NotFound exactly when the local
path does not exist — the NotFound error, naming the local path, is returned
in that case and in no other; a local path that exists as a regular file is
never silently skipped and never succeeds, but its failure is the
directory-read error or a remote-side failure, not NotFound. -/
theorem c5_notfound_amended :
    (∀ (f : Faults) (lp rp : Pathc) (fs : RemoteFS),
      send_directory f lp none rp fs =
        .err (.ioErr .notFound ("The local path " ++ dispPath lp ++ " does not exist!")) fs)
    ∧ (∀ (f : Faults) (lp rp : Pathc) (fs : RemoteFS) (t : FsTree),
      errKindOf (send_directory f lp (some t) rp fs) ≠ some ErrKind.notFound)
    ∧ ∀ (f : Faults) (lp rp : Pathc) (fs : RemoteFS) (c : List Nat) (st : RemoteFS),
      send_directory f lp (some (.file c)) rp fs ≠ .ok st () := by
  refine ⟨fun f lp rp fs => rfl, ?_, ?_⟩
  · intro f lp rp fs t
    exact send_never_notFound.1 t f lp rp fs
  · intro f lp rp fs c st h
    rw [show send_directory f lp (some (.file c)) rp fs = send_node f lp (.file c) rp fs from rfl,
      send_node_eq] at h
    split at h
    · simp at h
    · simp at h
    · simp at h

/-- Witness for C5 amended: the missing local path at concrete inputs. -/
theorem c5_notfound_amended_witness :
    send_directory noFaults ["l"] none ["r"] [] =
      .err (.ioErr .notFound ("The local path " ++ dispPath ["l"] ++ " does not exist!")) [] :=
  c5_notfound_amended.1 noFaults ["l"] ["r"] []

theorem awrite_mem {ν : Type} :
    ∀ (A : List (Pathc × ν)) (p : Pathc) (v : ν) (e : Pathc × ν),
    e ∈ awrite A p v → e ∈ A ∨ e = (p, v)
  | [], p, v, e, h => by
    simp [awrite] at h
    exact Or.inr h
  | (q, n) :: rest, p, v, e, h => by
    by_cases hq : q = p
    · simp only [awrite, if_pos hq] at h
      rcases List.mem_cons.1 h with h1 | h2
      · exact Or.inr h1
      · exact Or.inl (List.mem_cons_of_mem _ h2)
    · simp only [awrite, if_neg hq] at h
      rcases List.mem_cons.1 h with h1 | h2
      · exact Or.inl (h1 ▸ List.mem_cons_self _ _)
      · rcases awrite_mem rest p v e h2 with h3 | h3
        · exact Or.inl (List.mem_cons_of_mem _ h3)
        · exact Or.inr h3

theorem make_dirs_go_mem (f : Faults) :
    ∀ (rest : List String) (pre : Pathc) (fs : RemoteFS) (e : Pathc × RNode),
    e ∈ stOf (make_dirs_go f fs pre rest) → e ∈ fs ∨ goodR e.2 = true
  | [], pre, fs, e, h => Or.inl h
  | c :: cs, pre, fs, e, h => by
    rw [make_dirs_go_cons] at h
    split at h
    · split at h
      · exact make_dirs_go_mem f cs (pre ++ [c]) fs e h
      · exact Or.inl h
    · split at h
      · next fs2 heq =>
        obtain ⟨hfs2, hnone⟩ := mkdirFS_some heq
        rcases make_dirs_go_mem f cs (pre ++ [c]) fs2 e h with h1 | h1
        · rw [hfs2] at h1
          rcases List.mem_append.1 h1 with h2 | h2
          · exact Or.inl h2
          · right
            have he : e = (pre ++ [c], RNode.dir 0o755) := by simpa using h2
            rw [he]
            rfl
        · exact Or.inr h1
      · exact Or.inl h

theorem send_goodR_main :
    (∀ t : FsTree, ∀ (f : Faults) (lp rp : Pathc) (fs : RemoteFS) (e : Pathc × RNode),
      e ∈ stOf (send_node f lp t rp fs) → e ∈ fs ∨ goodR e.2 = true)
    ∧ ∀ cs : List (String × FsTree), ∀ (f : Faults) (lp rp : Pathc) (fs : RemoteFS)
      (e : Pathc × RNode),
      e ∈ stOf (send_children f lp cs rp fs) → e ∈ fs ∨ goodR e.2 = true := by
  have hrem : ∀ (f : Faults) (rp : Pathc) (fs fs1 : RemoteFS) (v : Unit),
      (match statR f fs rp with
        | Except.ok n =>
          if n.isDir then Outcome.ok fs ()
          else Outcome.err (SbsError.ioErr ErrKind.invalidInput
            ("The remote path " ++ dispPath rp ++ " is not a directory!")) fs
        | Except.error _ => make_dirs f fs rp) = Outcome.ok fs1 v →
      ∀ e : Pathc × RNode, e ∈ fs1 → e ∈ fs ∨ goodR e.2 = true := by
    intro f rp fs fs1 v heq e h1
    split at heq
    · split at heq
      · cases heq
        exact Or.inl h1
      · simp at heq
    · have h2 : e ∈ stOf (make_dirs f fs rp) := by rw [heq]; exact h1
      exact make_dirs_go_mem f rp [] fs e h2
  refine treeInd _ _ ?_ ?_ ?_ ?_
  · intro c f lp rp fs e
    rw [send_node_eq]
    split
    · next fs1 v heq =>
      intro h
      exact hrem f rp fs fs1 v heq e h
    · next e2 st heq =>
      intro h
      split at heq
      · split at heq
        · simp at heq
        · cases heq
          exact Or.inl h
      · have h2 : e ∈ stOf (make_dirs f fs rp) := by rw [heq]; exact h
        exact make_dirs_go_mem f rp [] fs e h2
    · next m st heq =>
      intro h
      split at heq
      · split at heq
        · simp at heq
        · simp at heq
      · have h2 : e ∈ stOf (make_dirs f fs rp) := by rw [heq]; exact h
        exact make_dirs_go_mem f rp [] fs e h2
  · intro cs hQ f lp rp fs e
    rw [send_node_eq]
    split
    · next fs1 v heq =>
      intro h
      rcases hQ f lp rp fs1 e h with h1 | h1
      · exact hrem f rp fs fs1 v heq e h1
      · exact Or.inr h1
    · next e2 st heq =>
      intro h
      split at heq
      · split at heq
        · simp at heq
        · cases heq
          exact Or.inl h
      · have h2 : e ∈ stOf (make_dirs f fs rp) := by rw [heq]; exact h
        exact make_dirs_go_mem f rp [] fs e h2
    · next m st heq =>
      intro h
      split at heq
      · split at heq
        · simp at heq
        · simp at heq
      · have h2 : e ∈ stOf (make_dirs f fs rp) := by rw [heq]; exact h
        exact make_dirs_go_mem f rp [] fs e h2
  · intro f lp rp fs e h
    exact Or.inl h
  · intro n t rest hP hQ f lp rp fs e
    cases t with
    | file c =>
      by_cases hsf : f.sendFail (rp ++ [n]) = true
      · rw [send_children_cons_file_fail hsf]
        intro h
        exact Or.inl h
      · rw [send_children_cons_file_ok (by revert hsf; cases f.sendFail (rp ++ [n]) <;> simp)]
        intro h
        rcases hQ f lp rp _ e h with h1 | h1
        · rcases awrite_mem fs (rp ++ [n]) (RNode.rfile c 0o755 c.length) e h1 with h2 | h2
          · exact Or.inl h2
          · right
            rw [h2]
            simp [goodR]
        · exact Or.inr h1
    | dir cs2 =>
      cases hA : send_node f (lp ++ [n]) (.dir cs2) (rp ++ [n]) fs with
      | ok fs2 v =>
        cases v
        rw [send_children_cons_dir_ok hA]
        intro h
        rcases hQ f lp rp fs2 e h with h1 | h1
        · have h2 : e ∈ stOf (send_node f (lp ++ [n]) (.dir cs2) (rp ++ [n]) fs) := by
            rw [hA]
            exact h1
          exact hP f (lp ++ [n]) (rp ++ [n]) fs e h2
        · exact Or.inr h1
      | err e2 st =>
        rw [send_children_cons_dir_err hA]
        intro h
        have h2 : e ∈ stOf (send_node f (lp ++ [n]) (.dir cs2) (rp ++ [n]) fs) := by
          rw [hA]
          exact h
        exact hP f (lp ++ [n]) (rp ++ [n]) fs e h2
      | panicked m st =>
        rw [send_children_cons_dir_panic hA]
        intro h
        have h2 : e ∈ stOf (send_node f (lp ++ [n]) (.dir cs2) (rp ++ [n]) fs) := by
          rw [hA]
          exact h
        exact hP f (lp ++ [n]) (rp ++ [n]) fs e h2

/-- C8: fixed transfer attributes. Every remote entry present after a run of
send_directory (whatever its outcome) is either an entry that already existed
before the push, or carries the hardcoded attributes: a directory created by
make_dirs has mode 0o755, and a pushed file has mode 0o755 and recorded length
equal to the byte length of its content. The same holds for make_dirs alone,
and the push of a single file writes exactly the node with mode 0o755 and
length equal to the content length, independent of any source attribute. -/
theorem c8_fixed_attributes :
    (∀ (f : Faults) (lp rp : Pathc) (ln : Option FsTree) (fs : RemoteFS) (e : Pathc × RNode),
      e ∈ stOf (send_directory f lp ln rp fs) → e ∈ fs ∨ goodR e.2 = true)
    ∧ (∀ (f : Faults) (rp : Pathc) (fs : RemoteFS) (e : Pathc × RNode),
      e ∈ stOf (make_dirs f fs rp) → e ∈ fs ∨ goodR e.2 = true)
    ∧ ∀ (f : Faults) (lp rp : Pathc) (n : String) (c : List Nat)
      (rest : List (String × FsTree)) (fs : RemoteFS),
      f.sendFail (rp ++ [n]) = false →
      send_children f lp ((n, .file c) :: rest) rp fs =
        send_children f lp rest rp (awrite fs (rp ++ [n]) (.rfile c 0o755 c.length)) := by
  refine ⟨?_, ?_, ?_⟩
  · intro f lp rp ln fs e h
    cases ln with
    | none =>
      exact Or.inl h
    | some t =>
      exact send_goodR_main.1 t f lp rp fs e h
  · intro f rp fs e h
    exact make_dirs_go_mem f rp [] fs e h
  · intro f lp rp n c rest fs hsf
    exact send_children_cons_file_ok hsf lp c rest fs

/-- Witness for C8 at concrete inputs: the push of one file into an empty
remote leaves only freshly created entries, each with the fixed attributes. -/
theorem c8_fixed_attributes_witness :
    (["r"], RNode.dir 0o755) ∈
      stOf (send_directory noFaults ["l"] (some (.dir [("a", .file [7])])) ["r"] [])
    ∧ ((["r"], RNode.dir 0o755) ∈ ([] : RemoteFS) ∨ goodR (RNode.dir 0o755) = true) :=
  ⟨by decide,
    c8_fixed_attributes.1 noFaults ["l"] ["r"] (some (.dir [("a", .file [7])])) []
      (["r"], RNode.dir 0o755) (by decide)⟩

theorem statR_match_congr {f1 f2 : Faults}
    (h : ∀ q, (f1.statErr q).isSome = (f2.statErr q).isSome) (fs : RemoteFS) (p : Pathc) :
    (∃ n, statR f1 fs p = .ok n ∧ statR f2 fs p = .ok n)
    ∨ ∃ e1 e2, statR f1 fs p = .error e1 ∧ statR f2 fs p = .error e2 := by
  have hp := h p
  cases h1 : f1.statErr p with
  | some e1 =>
    cases h2 : f2.statErr p with
    | some e2 =>
      exact Or.inr ⟨e1, e2, by simp [statR, h1], by simp [statR, h2]⟩
    | none =>
      rw [h1, h2] at hp
      simp at hp
  | none =>
    cases h2 : f2.statErr p with
    | some e2 =>
      rw [h1, h2] at hp
      simp at hp
    | none =>
      cases hl : alookup fs p with
      | some n =>
        exact Or.inl ⟨n, by simp [statR, h1, hl], by simp [statR, h2, hl]⟩
      | none =>
        exact Or.inr ⟨.noSuchFile, .noSuchFile, by simp [statR, h1, hl], by simp [statR, h2, hl]⟩

theorem make_dirs_go_congr {f1 f2 : Faults}
    (h : ∀ q, (f1.statErr q).isSome = (f2.statErr q).isSome) :
    ∀ (rest : List String) (pre : Pathc) (fs : RemoteFS),
    make_dirs_go f1 fs pre rest = make_dirs_go f2 fs pre rest
  | [], _, _ => rfl
  | c :: cs, pre, fs => by
    rw [make_dirs_go_cons, make_dirs_go_cons]
    rcases statR_match_congr h fs (pre ++ [c]) with ⟨n, e1, e2⟩ | ⟨e1, e2, he1, he2⟩
    · rw [e1, e2]
      show (if n.isDir then make_dirs_go f1 fs (pre ++ [c]) cs
            else Outcome.panicked
              ("The remote path " ++ dispPath (pre ++ [c]) ++ " is not a directory!") fs)
          = (if n.isDir then make_dirs_go f2 fs (pre ++ [c]) cs
            else Outcome.panicked
              ("The remote path " ++ dispPath (pre ++ [c]) ++ " is not a directory!") fs)
      by_cases hd : n.isDir = true
      · rw [if_pos hd, if_pos hd]
        exact make_dirs_go_congr h cs (pre ++ [c]) fs
      · rw [if_neg hd, if_neg hd]
    · rw [he1, he2]
      show (match mkdirFS fs (pre ++ [c]) 0o755 with
            | some fs2 => make_dirs_go f1 fs2 (pre ++ [c]) cs
            | none => Outcome.panicked ("mkdir failed on " ++ dispPath (pre ++ [c])) fs)
          = (match mkdirFS fs (pre ++ [c]) 0o755 with
            | some fs2 => make_dirs_go f2 fs2 (pre ++ [c]) cs
            | none => Outcome.panicked ("mkdir failed on " ++ dispPath (pre ++ [c])) fs)
      cases mkdirFS fs (pre ++ [c]) 0o755 with
      | some fs2 => exact make_dirs_go_congr h cs (pre ++ [c]) fs2
      | none => rfl

theorem send_congr_main {f1 f2 : Faults}
    (h : ∀ q, (f1.statErr q).isSome = (f2.statErr q).isSome)
    (hsf : ∀ q, f1.sendFail q = f2.sendFail q) :
    (∀ t : FsTree, ∀ (lp rp : Pathc) (fs : RemoteFS),
      send_node f1 lp t rp fs = send_node f2 lp t rp fs)
    ∧ ∀ cs : List (String × FsTree), ∀ (lp rp : Pathc) (fs : RemoteFS),
      send_children f1 lp cs rp fs = send_children f2 lp cs rp fs := by
  have hafter : ∀ (rp : Pathc) (fs : RemoteFS),
      (match statR f1 fs rp with
        | Except.ok n =>
          if n.isDir then Outcome.ok fs ()
          else Outcome.err (SbsError.ioErr ErrKind.invalidInput
            ("The remote path " ++ dispPath rp ++ " is not a directory!")) fs
        | Except.error _ => make_dirs f1 fs rp)
      = (match statR f2 fs rp with
        | Except.ok n =>
          if n.isDir then Outcome.ok fs ()
          else Outcome.err (SbsError.ioErr ErrKind.invalidInput
            ("The remote path " ++ dispPath rp ++ " is not a directory!")) fs
        | Except.error _ => make_dirs f2 fs rp) := by
    intro rp fs
    rcases statR_match_congr h fs rp with ⟨n, e1, e2⟩ | ⟨e1, e2, he1, he2⟩
    · rw [e1, e2]
    · rw [he1, he2]
      exact make_dirs_go_congr h rp [] fs
  refine treeInd _ _ ?_ ?_ ?_ ?_
  · intro c lp rp fs
    rw [send_node_eq, send_node_eq, hafter rp fs]
  · intro cs hQ lp rp fs
    rw [send_node_eq, send_node_eq, hafter rp fs]
    split
    · next fs1 v heq =>
      exact hQ lp rp fs1
    · rfl
    · rfl
  · intro lp rp fs
    rfl
  · intro n t rest hP hQ lp rp fs
    cases t with
    | file c =>
      by_cases hs1 : f1.sendFail (rp ++ [n]) = true
      · rw [send_children_cons_file_fail hs1,
          send_children_cons_file_fail (by rw [← hsf]; exact hs1)]
      · have hs1f : f1.sendFail (rp ++ [n]) = false := by
          revert hs1
          cases f1.sendFail (rp ++ [n]) <;> simp
        rw [send_children_cons_file_ok hs1f,
          send_children_cons_file_ok (by rw [← hsf]; exact hs1f)]
        exact hQ lp rp _
    | dir cs2 =>
      have hP2 := hP (lp ++ [n]) (rp ++ [n]) fs
      cases hA : send_node f1 (lp ++ [n]) (.dir cs2) (rp ++ [n]) fs with
      | ok fs2 v =>
        cases v
        rw [send_children_cons_dir_ok hA, send_children_cons_dir_ok (hP2 ▸ hA)]
        exact hQ lp rp fs2
      | err e2 st =>
        rw [send_children_cons_dir_err hA, send_children_cons_dir_err (hP2 ▸ hA)]
      | panicked m st =>
        rw [send_children_cons_dir_panic hA, send_children_cons_dir_panic (hP2 ▸ hA)]

/-- C10: any failure of the remote stat takes the creation branch and the stat
error is never propagated. The outcome of send_directory depends only on which
paths fail to stat (and which transfers fail), never on the stat error values;
the same holds for make_dirs at every prefix; whenever the stat of the remote
root reports any error at all, send_node proceeds exactly as if the path were
missing, invoking make_dirs; and concretely a transport stat error at the
remote root yields the very same run as a does-not-exist result. -/
theorem c10_stat_failure_creates :
    (∀ (f1 f2 : Faults),
      (∀ q, (f1.statErr q).isSome = (f2.statErr q).isSome) →
      (∀ q, f1.sendFail q = f2.sendFail q) →
      ∀ (lp : Pathc) (ln : Option FsTree) (rp : Pathc) (fs : RemoteFS),
        send_directory f1 lp ln rp fs = send_directory f2 lp ln rp fs)
    ∧ (∀ (f1 f2 : Faults),
      (∀ q, (f1.statErr q).isSome = (f2.statErr q).isSome) →
      ∀ (rp : Pathc) (fs : RemoteFS), make_dirs f1 fs rp = make_dirs f2 fs rp)
    ∧ (∀ (f : Faults) (fs : RemoteFS) (rp : Pathc) (e : SErr) (t : FsTree) (lp : Pathc),
      f.statErr rp = some e →
      send_node f lp t rp fs =
        (match make_dirs f fs rp with
         | .ok fs1 _ =>
           (match t with
            | .file _ =>
              .err (.ioErr .notADirectory ("read_dir on " ++ dispPath lp ++ ": not a directory")) fs1
            | .dir cs => send_children f lp cs rp fs1)
         | .err e2 st => .err e2 st
         | .panicked m st => .panicked m st))
    ∧ send_directory statFaultR ["l"] (some (.dir [("a", .file [5])])) ["r"] []
        = send_directory noFaults ["l"] (some (.dir [("a", .file [5])])) ["r"] [] := by
  refine ⟨?_, ?_, ?_, rfl⟩
  · intro f1 f2 h hsf lp ln rp fs
    cases ln with
    | none => rfl
    | some t => exact (send_congr_main h hsf).1 t lp rp fs
  · intro f1 f2 h rp fs
    exact make_dirs_go_congr h rp [] fs
  · intro f fs rp e t lp hse
    rw [send_node_eq]
    have hst : statR f fs rp = .error e := by simp [statR, hse]
    rw [hst]

/-- Witness for C10 at concrete inputs: the remote stat reports a transport
error, and the push proceeds by creating the remote directory. -/
theorem c10_stat_failure_creates_witness :
    statFaultR.statErr ["r"] = some (SErr.transport 7)
    ∧ send_node statFaultR ["l"] (.file []) ["r"] [] =
        .err (.ioErr .notADirectory ("read_dir on " ++ dispPath ["l"] ++ ": not a directory"))
          [(["r"], RNode.dir 0o755)] :=
  ⟨rfl, c10_stat_failure_creates.2.2.1 statFaultR [] ["r"] (.transport 7) (.file []) ["l"] rfl⟩

theorem receive_entries_cons_some {pb : Pathc} {n : String} (hfn : file_name pb = some n)
    (recurse : Pathc → Pathc → LocalFS → Outcome LocalFS Unit)
    (fs : RemoteFS) (lp rp : Pathc) (st : RNode)
    (rest : List (Pathc × RNode)) (lfs : LocalFS) :
    receive_entries recurse fs lp rp ((pb, st) :: rest) lfs =
      match (if st.isDir then
              match create_dir_all lfs (lp ++ [n]) with
              | .error e => Outcome.err e lfs
              | .ok lfs1 => recurse (lp ++ [n]) (rp ++ [n]) lfs1
            else
              match scp_recv fs (rp ++ [n]) with
              | .error e => Outcome.err e lfs
              | .ok c =>
                match file_create lfs (lp ++ [n]) c with
                | .error e => Outcome.err e lfs
                | .ok lfs1 => Outcome.ok lfs1 ()) with
      | .ok lfs1 _ => receive_entries recurse fs lp rp rest lfs1
      | .err e st2 => .err e st2
      | .panicked m st2 => .panicked m st2 := by
  simp only [receive_entries, hfn]

theorem receive_entries_all_none (recurse : Pathc → Pathc → LocalFS → Outcome LocalFS Unit)
    (fs : RemoteFS) (lp rp : Pathc) :
    ∀ (extra : List (Pathc × RNode)), (∀ e ∈ extra, file_name e.1 = none) →
    ∀ lfs : LocalFS, receive_entries recurse fs lp rp extra lfs = .ok lfs ()
  | [], _, lfs => rfl
  | (pb, st) :: rest, hx, lfs => by
    rw [receive_entries_skip (hx (pb, st) (List.mem_cons_self _ _)) recurse fs lp rp st rest lfs]
    exact receive_entries_all_none recurse fs lp rp rest
      (fun e he => hx e (List.mem_cons_of_mem _ he)) lfs

theorem receive_entries_append_none {extra : List (Pathc × RNode)}
    (hx : ∀ e ∈ extra, file_name e.1 = none)
    (recurse : Pathc → Pathc → LocalFS → Outcome LocalFS Unit) (fs : RemoteFS) (lp rp : Pathc) :
    ∀ (entries : List (Pathc × RNode)) (lfs : LocalFS),
    receive_entries recurse fs lp rp (entries ++ extra) lfs =
      receive_entries recurse fs lp rp entries lfs
  | [], lfs => by
    rw [List.nil_append, receive_entries_nil]
    exact receive_entries_all_none recurse fs lp rp extra hx lfs
  | (pb, st) :: rest, lfs => by
    rw [List.cons_append]
    cases hfn : file_name pb with
    | none =>
      rw [receive_entries_skip hfn recurse fs lp rp st (rest ++ extra) lfs,
        receive_entries_skip hfn recurse fs lp rp st rest lfs]
      exact receive_entries_append_none hx recurse fs lp rp rest lfs
    | some n =>
      rw [receive_entries_cons_some hfn recurse fs lp rp st (rest ++ extra) lfs,
        receive_entries_cons_some hfn recurse fs lp rp st rest lfs]
      split
      · next lfs1 v heq =>
        exact receive_entries_append_none hx recurse fs lp rp rest lfs1
      · rfl
      · rfl

theorem receive_entries_congr {r1 r2 : Pathc → Pathc → LocalFS → Outcome LocalFS Unit}
    (h : ∀ lq rq lfs, r1 lq rq lfs = r2 lq rq lfs) (fs : RemoteFS) (lp rp : Pathc) :
    ∀ (entries : List (Pathc × RNode)) (lfs : LocalFS),
    receive_entries r1 fs lp rp entries lfs = receive_entries r2 fs lp rp entries lfs
  | [], lfs => rfl
  | (pb, st) :: rest, lfs => by
    cases hfn : file_name pb with
    | none =>
      rw [receive_entries_skip hfn r1 fs lp rp st rest lfs,
        receive_entries_skip hfn r2 fs lp rp st rest lfs]
      exact receive_entries_congr h fs lp rp rest lfs
    | some n =>
      rw [receive_entries_cons_some hfn r1 fs lp rp st rest lfs,
        receive_entries_cons_some hfn r2 fs lp rp st rest lfs]
      by_cases hd : st.isDir = true
      · rw [if_pos hd, if_pos hd]
        cases hc : create_dir_all lfs (lp ++ [n]) with
        | error e => rfl
        | ok lfs1 =>
          show (match r1 (lp ++ [n]) (rp ++ [n]) lfs1 with
                | Outcome.ok lfs2 _ => receive_entries r1 fs lp rp rest lfs2
                | Outcome.err e st2 => Outcome.err e st2
                | Outcome.panicked m st2 => Outcome.panicked m st2)
              = (match r2 (lp ++ [n]) (rp ++ [n]) lfs1 with
                | Outcome.ok lfs2 _ => receive_entries r2 fs lp rp rest lfs2
                | Outcome.err e st2 => Outcome.err e st2
                | Outcome.panicked m st2 => Outcome.panicked m st2)
          rw [h (lp ++ [n]) (rp ++ [n]) lfs1]
          cases r2 (lp ++ [n]) (rp ++ [n]) lfs1 with
          | ok lfs2 v =>
            cases v
            exact receive_entries_congr h fs lp rp rest lfs2
          | err e st2 => rfl
          | panicked m st2 => rfl
      · rw [if_neg hd, if_neg hd]
        split
        · next lfs1 v heq =>
          exact receive_entries_congr h fs lp rp rest lfs1
        · rfl
        · rfl

theorem receive_no_artifacts {f : Faults}
    (hart : ∀ (p : Pathc) (e : Pathc × RNode), e ∈ f.artifacts p → file_name e.1 = none)
    (fs : RemoteFS) :
    ∀ (fuel : Nat) (lp rp : Pathc) (lfs : LocalFS),
    receive_directory f fs fuel lp rp lfs = receive_directory (noArt f) fs fuel lp rp lfs
  | 0, _, _, _ => rfl
  | fuel + 1, lp, rp, lfs => by
    simp only [receive_directory]
    cases hc : create_dir_all lfs lp with
    | error e => rfl
    | ok lfs1 =>
      cases halook : alookup fs rp with
      | none =>
        rw [show readdirR f fs rp = .error (.sftpReaddir rp) from by simp [readdirR, halook],
          show readdirR (noArt f) fs rp = .error (.sftpReaddir rp) from by simp [readdirR, halook]]
      | some nd =>
        cases nd with
        | dir m =>
          rw [show readdirR f fs rp = .ok (childrenOf fs rp ++ f.artifacts rp) from by
              simp [readdirR, halook],
            show readdirR (noArt f) fs rp = .ok (childrenOf fs rp) from by
              simp [readdirR, halook, noArt]]
          exact Eq.trans
            (receive_entries_append_none (fun e he => hart rp e he)
              (receive_directory f fs fuel) fs lp rp (childrenOf fs rp) lfs1)
            (receive_entries_congr
              (fun lq rq lfs2 => receive_no_artifacts hart fs fuel lq rq lfs2)
              fs lp rp (childrenOf fs rp) lfs1)
        | rfile c m l =>
          rw [show readdirR f fs rp = .error (.sftpReaddir rp) from by simp [readdirR, halook],
            show readdirR (noArt f) fs rp = .error (.sftpReaddir rp) from by
              simp [readdirR, halook]]

/-- C9: the pull silently skips entries with no resolvable bare filename.
A listed entry whose path yields no final filename component is dropped with
no local node created and no error — the walk simply continues with the rest;
consequently a fault model that injects only unnameable artifacts into remote
listings produces exactly the run that ignores them; and on the concrete
remote holding one directory with one file plus an injected parent-dir
artifact, the pull succeeds, transfers the nameable file, and creates nothing
for the artifact. -/
theorem c9_skip_unnameable :
    (∀ (recurse : Pathc → Pathc → LocalFS → Outcome LocalFS Unit) (fs : RemoteFS)
      (lp rp pb : Pathc) (st : RNode) (rest : List (Pathc × RNode)) (lfs : LocalFS),
      file_name pb = none →
      receive_entries recurse fs lp rp ((pb, st) :: rest) lfs =
        receive_entries recurse fs lp rp rest lfs)
    ∧ (∀ (f : Faults) (fs : RemoteFS),
      (∀ (p : Pathc) (e : Pathc × RNode), e ∈ f.artifacts p → file_name e.1 = none) →
      ∀ (fuel : Nat) (lp rp : Pathc) (lfs : LocalFS),
        receive_directory f fs fuel lp rp lfs = receive_directory (noArt f) fs fuel lp rp lfs)
    ∧ receive_directory artFaults fsC9 2 ["l"] ["r"] []
        = .ok [(["l"], .ldir), (["l", "a"], .lfile [7])] () := by
  refine ⟨?_, ?_, rfl⟩
  · intro recurse fs lp rp pb st rest lfs hfn
    exact receive_entries_skip hfn recurse fs lp rp st rest lfs
  · intro f fs hart fuel lp rp lfs
    exact receive_no_artifacts hart fs fuel lp rp lfs

/-- Witness for C9 at concrete inputs: a parent-dir artifact has no resolvable
filename and its entry is skipped outright by the entry walk. -/
theorem c9_skip_unnameable_witness :
    file_name ["r", ".."] = none
    ∧ receive_entries (receive_directory artFaults fsC9 1) fsC9 ["l"] ["r"]
        [(["r", ".."], RNode.dir 0o755)] [(["l"], .ldir)] =
      receive_entries (receive_directory artFaults fsC9 1) fsC9 ["l"] ["r"] [] [(["l"], .ldir)] :=
  ⟨rfl, c9_skip_unnameable.1 (receive_directory artFaults fsC9 1) fsC9 ["l"] ["r"] ["r", ".."]
    (RNode.dir 0o755) [] [(["l"], .ldir)] rfl⟩
